import Mathlib

/-!
Verification development for the Stardazed TX FBX import subsystem
(asset-fbx.ts, asset-fbx-text.ts): the text tokenizer, the text document
parser state machine, the document-graph builder delegate, and the
graph-to-asset resolver.

The TypeScript source is embedded shallowly:
* JS numbers that carry numeric document values are modelled as `Rat`
  (IEEE rounding of Float32Array/Float64Array stores is not modelled;
  no claim below depends on stored numeric values, only on element kinds
  and on exact small integers).
* Typed arrays are modelled as an element-kind tag plus a list of values.
* Promise pipelines are modelled with `Except` (reject = `.error`) and
  `Option` for JS `null`.
* Mutable parser/builder objects become explicit state records threaded
  through step functions; `console.warn` is ignored (pure), thrown
  assertions / TypeErrors are modelled as explicit error outcomes.
-/

namespace StardazedFBX

/-- Element kind of a JS typed array (Int32Array / Float32Array / Float64Array). -/
inductive ElemKind where
  | i32
  | f32
  | f64
deriving DecidableEq, Repr

/-- A typed numeric array: element kind plus contents. -/
structure ArrVal where
  elem : ElemKind
  size : Nat
  data : List Rat
deriving DecidableEq, Repr

/-- FBXValue = number | string | ArrayBuffer | TypedArray (ArrayBuffer not
    produced by the text front-end, so omitted). -/
inductive FBXValueM where
  | num (q : Rat)
  | str (s : String)
  | arr (a : ArrVal)
deriving DecidableEq, Repr

/-- JS `~v` (bitwise complement) on an in-range int32 value. -/
def jsBitNot (v : Int) : Int := -v - 1

/-- The polygon scan loop of `FBXDocumentGraph.buildMeshes`
    (asset-fbx.ts lines 517-532): walk the polygon index array linearly,
    pushing `pvi` into the per-polygon polygon-vertex-index accumulator and
    `vi` (or `~vi` for a negative terminator) into the vertex-index
    accumulator; a negative entry commits the polygon (`mb.addPolygon`)
    and resets both accumulators. The result is the list of committed
    `(polygonVertexIndexArray, vertexIndexArray)` pairs. -/
def scanPolygonIndexes : List Int → Nat → List Nat → List Int → List (List Nat × List Int)
  | [], _, _, _ => []
  | vi :: rest, pvi, pviAcc, viAcc =>
    let pviAcc2 := pviAcc ++ [pvi]
    if vi < 0 then
      (pviAcc2, viAcc ++ [jsBitNot vi]) :: scanPolygonIndexes rest (pvi + 1) [] []
    else
      scanPolygonIndexes rest (pvi + 1) pviAcc2 (viAcc ++ [vi])

/-- `buildMeshes` starts the scan with `pvi = 0` and empty accumulators. -/
def buildMeshPolygons (polygonIndexes : List Int) : List (List Nat × List Int) :=
  scanPolygonIndexes polygonIndexes 0 [] []

theorem scanPolygonIndexes_length (l : List Int) :
    ∀ (p : Nat) (a : List Nat) (v : List Int),
      (scanPolygonIndexes l p a v).length = l.countP (fun x => decide (x < 0)) := by
  induction l with
  | nil => intro p a v; simp [scanPolygonIndexes]
  | cons x xs ih =>
    intro p a v
    by_cases hx : x < 0
    · simp [scanPolygonIndexes, hx, ih, List.countP_cons]
    · simp [scanPolygonIndexes, hx, ih, List.countP_cons]

/-- C1: the polygon decoder in `buildMeshes` emits exactly one polygon per
    negative entry of the PolygonVertexIndex array; a negative entry `v`
    terminates the current polygon and contributes `~v` as its final vertex
    index, so `[0,2,-5]` yields exactly the polygon `[0,2,4]` and
    `[0,1,-3,3,4,-6]` yields exactly `[0,1,2]` and `[3,4,5]`. -/
theorem buildMeshPolygons_correct :
    (∀ l : List Int, (buildMeshPolygons l).length = l.countP (fun v => decide (v < 0)))
    ∧ (buildMeshPolygons [0, 2, -5]).map Prod.snd = [[0, 2, 4]]
    ∧ (buildMeshPolygons [0, 1, -3, 3, 4, -6]).map Prod.snd = [[0, 1, 2], [3, 4, 5]] := by
  refine ⟨fun l => scanPolygonIndexes_length l 0 [] [], ?_, ?_⟩ <;> rfl

/-! ## Text tokenizer (FBXTextTokenizer, asset-fbx-text.ts lines 29-203) -/

/-- `'\x7b'` and `'\x7d'`, the block delimiter characters. -/
def openBraceChar : Char := Char.ofNat 123

def closeBraceChar : Char := Char.ofNat 125

def isWSChar (c : Char) : Bool :=
  c = ' ' || c = '\t' || c = '\r' || c = '\n'

/-- The characters that terminate the default token scan
    (space, tab, CR, LF, comma, open brace, close brace). -/
def isBreakChar (c : Char) : Bool :=
  isWSChar c || c = ',' || c = openBraceChar || c = closeBraceChar

def isAlphaChar (c : Char) : Bool :=
  ('A' ≤ c && c ≤ 'Z') || ('a' ≤ c && c ≤ 'z')

def isDigitChar (c : Char) : Bool :=
  '0' ≤ c && c ≤ '9'

/-- Tokenizer state: `source`, the cursor `offset` (starts at -1) and
    `lastChar` (`none` models the JS `null` assigned past the end). The
    `length` field of the source class always equals `source.length`, so it
    is not duplicated here. -/
structure TokState where
  source : List Char
  offset : Int
  lastChar : Option Char
deriving DecidableEq, Repr

def initTokState (src : List Char) : TokState := ⟨src, -1, none⟩

/-- `this.source[i]` for an arbitrary (possibly out-of-range) index. -/
def charAt (src : List Char) (i : Int) : Option Char :=
  if 0 ≤ i then src.get? i.toNat else none

/-- `nextChar()`: advance the cursor; within bounds load the character,
    past the end set `lastChar` to null. Returns the new state and the
    returned character. -/
def nextChar (t : TokState) : TokState × Option Char :=
  let o := t.offset + 1
  if o < (t.source.length : Int) then
    let c := charAt t.source o
    (⟨t.source, o, c⟩, c)
  else
    (⟨t.source, o, none⟩, none)

theorem nextChar_props (t : TokState) :
    (nextChar t).1.source = t.source ∧ (nextChar t).1.offset = t.offset + 1 ∧
      ((nextChar t).2.isSome → t.offset + 1 < (t.source.length : Int)) := by
  unfold nextChar
  by_cases h : t.offset + 1 < (t.source.length : Int) <;> simp [h]

/-- The common shape of the tokenizer's four scan loops
    (`while (c = this.nextChar()) ...`): advance and keep consuming while
    `cont` holds of the character; stop on the first failing character or
    at end of input. The loops advance the cursor by one per iteration, so
    `source.length` steps of fuel always suffice; the fuel argument only
    makes the recursion structural (and hence executable). -/
def scanLoopFuel (cont : Char → Bool) : Nat → TokState → TokState
  | 0, t =>
    match (nextChar t).2 with
    | some _ => (nextChar t).1
    | none => (nextChar t).1
  | f + 1, t =>
    match (nextChar t).2 with
    | some ch =>
      if cont ch then scanLoopFuel cont f (nextChar t).1
      else (nextChar t).1
    | none => (nextChar t).1

theorem scanLoopFuel_none (cont : Char → Bool) (f : Nat) (t : TokState)
    (hc : (nextChar t).2 = none) : scanLoopFuel cont f t = (nextChar t).1 := by
  cases f <;> rw [scanLoopFuel, hc]

theorem scanLoopFuel_stop (cont : Char → Bool) (f : Nat) (t : TokState) (ch : Char)
    (hc : (nextChar t).2 = some ch) (hcont : cont ch = false) :
    scanLoopFuel cont f t = (nextChar t).1 := by
  cases f <;> rw [scanLoopFuel, hc]
  simp [hcont]

theorem scanLoopFuel_zero (cont : Char → Bool) (t : TokState) (ch : Char)
    (hc : (nextChar t).2 = some ch) : scanLoopFuel cont 0 t = (nextChar t).1 := by
  rw [scanLoopFuel, hc]

theorem scanLoopFuel_step (cont : Char → Bool) (f : Nat) (t : TokState) (ch : Char)
    (hc : (nextChar t).2 = some ch) (hcont : cont ch = true) :
    scanLoopFuel cont (f + 1) t = scanLoopFuel cont f (nextChar t).1 := by
  rw [scanLoopFuel, hc]
  simp [hcont]

/-- `skipWS()`: consume characters while they are whitespace. -/
def skipWS (t : TokState) : TokState :=
  scanLoopFuel isWSChar t.source.length t

/-- `skipToLineEnd()`: consume characters up to and including CR/LF. -/
def skipToLineEnd (t : TokState) : TokState :=
  scanLoopFuel (fun c => !(c = '\r' || c = '\n')) t.source.length t

/-- The string-literal scan loop of `nextToken` (lines 97-100): consume
    until a closing quote, CR, LF or end of input. -/
def scanStringLit (t : TokState) : TokState :=
  scanLoopFuel (fun c => !(c = '"' || c = '\r' || c = '\n')) t.source.length t

/-- The default token scan loop of `nextToken` (lines 135-138): consume
    until a break character or end of input. -/
def scanTokenRun (t : TokState) : TokState :=
  scanLoopFuel (fun c => !(isBreakChar c)) t.source.length t

theorem scanLoopFuel_props (cont : Char → Bool) :
    ∀ (f : Nat) (t : TokState),
      (scanLoopFuel cont f t).source = t.source ∧ t.offset < (scanLoopFuel cont f t).offset := by
  intro f
  induction f with
  | zero =>
    intro t
    have hp := nextChar_props t
    cases hc : (nextChar t).2 with
    | none =>
      rw [scanLoopFuel_none cont 0 t hc]
      exact ⟨hp.1, by have := hp.2.1; omega⟩
    | some ch =>
      rw [scanLoopFuel_zero cont t ch hc]
      exact ⟨hp.1, by have := hp.2.1; omega⟩
  | succ f ih =>
    intro t
    have hp := nextChar_props t
    cases hc : (nextChar t).2 with
    | none =>
      rw [scanLoopFuel_none cont (f + 1) t hc]
      exact ⟨hp.1, by have := hp.2.1; omega⟩
    | some ch =>
      by_cases hw : cont ch = true
      · rw [scanLoopFuel_step cont f t ch hc hw]
        have hr := ih (nextChar t).1
        exact ⟨by rw [hr.1, hp.1], by have h1 := hr.2; have h2 := hp.2.1; omega⟩
      · rw [scanLoopFuel_stop cont (f + 1) t ch hc (by simpa using hw)]
        exact ⟨hp.1, by have := hp.2.1; omega⟩

theorem skipWS_props (t : TokState) :
    (skipWS t).source = t.source ∧ t.offset < (skipWS t).offset :=
  scanLoopFuel_props _ _ t

theorem skipToLineEnd_props (t : TokState) :
    (skipToLineEnd t).source = t.source ∧ t.offset < (skipToLineEnd t).offset :=
  scanLoopFuel_props _ _ t

theorem scanStringLit_props (t : TokState) :
    (scanStringLit t).source = t.source ∧ t.offset < (scanStringLit t).offset :=
  scanLoopFuel_props _ _ t

theorem scanTokenRun_props (t : TokState) :
    (scanTokenRun t).source = t.source ∧ t.offset < (scanTokenRun t).offset :=
  scanLoopFuel_props _ _ t

/-- A scan loop entered with the cursor already on the last character (or
    past the end) takes a single `nextChar` step and stops. -/
theorem scanLoopFuel_past_end (cont : Char → Bool) (f : Nat) (t : TokState)
    (h : (t.source.length : Int) ≤ t.offset + 1) :
    scanLoopFuel cont f t = ⟨t.source, t.offset + 1, none⟩ := by
  have hn : (nextChar t).2 = none := by
    unfold nextChar
    have : ¬(t.offset + 1 < (t.source.length : Int)) := by omega
    simp [this]
  have h1 : (nextChar t).1 = ⟨t.source, t.offset + 1, none⟩ := by
    unfold nextChar
    have : ¬(t.offset + 1 < (t.source.length : Int)) := by omega
    simp [this]
  rw [scanLoopFuel_none cont f t hn]
  exact h1

/-- JS `source.substring(a, b)` for `0 ≤ a ≤ b` (the only way it is used). -/
def substring (src : List Char) (a b : Int) : String :=
  String.mk ((src.drop a.toNat).take (b - a).toNat)

def digitsToNat (l : List Char) : Nat :=
  l.foldl (fun acc c => acc * 10 + (c.toNat - 48)) 0

/-- JS `parseFloat` on a token's characters: parse the longest prefix of
    the form `[+-]? (digits [. digits*] | . digits) ([eE][+-]?digits)?`;
    `none` models NaN (no valid prefix). Values are exact rationals; IEEE
    double rounding is not modelled (no claim depends on it). -/
def jsParseFloat (cs : List Char) : Option Rat :=
  let sp : Int × List Char :=
    match cs with
    | '-' :: rest => (-1, rest)
    | '+' :: rest => (1, rest)
    | _ => (1, cs)
  let ip := sp.2.takeWhile isDigitChar
  let r2 := sp.2.drop ip.length
  let fp : List Char :=
    match r2 with
    | '.' :: rest => rest.takeWhile isDigitChar
    | _ => []
  let r3 : List Char :=
    match r2 with
    | '.' :: rest => rest.drop (rest.takeWhile isDigitChar).length
    | _ => r2
  if ip.isEmpty && fp.isEmpty then none
  else
    let mantNum : Int := (digitsToNat ip : Int) * (10 : Int) ^ fp.length + (digitsToNat fp : Int)
    let mantDen : Nat := (10 : Nat) ^ fp.length
    let expVal : Int :=
      match r3 with
      | c :: rest =>
        if c = 'e' || c = 'E' then
          let esp : Int × List Char :=
            match rest with
            | '-' :: rr => (-1, rr)
            | '+' :: rr => (1, rr)
            | _ => (1, rest)
          let ed := esp.2.takeWhile isDigitChar
          if ed.isEmpty then 0 else esp.1 * (digitsToNat ed : Int)
        else 0
      | [] => 0
    some (if 0 ≤ expVal then mkRat (sp.1 * mantNum * (10 : Int) ^ expVal.toNat) mantDen
          else mkRat (sp.1 * mantNum) (mantDen * (10 : Nat) ^ (-expVal).toNat))

/-- JS `ToInt32` of an integer: wrap into `[-2^31, 2^31)`. -/
def toInt32 (i : Int) : Int :=
  let m := i.emod 4294967296
  if m ≥ 2147483648 then m - 4294967296 else m

/-- JS `q | 0` on a finite number: truncate toward zero, then wrap to int32. -/
def jsOrZero (q : Rat) : Int :=
  toInt32 (q.num / (q.den : Int))

inductive TokenTypeM where
  | invalid
  | eofT
  | keyT
  | stringT
  | numberT
  | arrayCountT
  | openBlockT
  | closeBlockT
  | commaT
deriving DecidableEq, Repr

inductive TokValM where
  | s (v : String)
  | n (v : Rat)
deriving DecidableEq, Repr

/-- Token = `\x7b type, offset, val? \x7d`. -/
structure TokenM where
  type : TokenTypeM
  offset : Int
  val : Option TokValM
deriving DecidableEq, Repr

/-- Classification of a scanned run whose first character is alphabetic
    (lines 145-165): the bare words `T` and `Y` are String values; a run of
    length ≥ 2 ending in `:` is a Key whose value drops the colon; anything
    else is Invalid. `t3` is the rewound state, `invalidTok` the
    `invalid()` result of the enclosing `nextToken`. -/
def classifyAlpha (t3 : TokState) (tokenStart : Int) (token : String)
    (invalidTok : TokState × TokenM) : TokState × TokenM :=
  if token = "T" || token = "Y" then
    (t3, ⟨.stringT, tokenStart, some (.s token)⟩)
  else if token.length < 2 || token.back ≠ ':' then
    invalidTok
  else
    (t3, ⟨.keyT, tokenStart, some (.s (token.dropRight 1))⟩)

/-- Classification of a scanned run starting with `*`, `-` or a digit
    (lines 166-197): `*N` with a positive int32 `N` is an ArrayCount,
    otherwise parse as a float (NaN is Invalid). -/
def classifyNumeric (t3 : TokState) (tokenStart : Int) (firstChar : Char) (token : String)
    (invalidTok : TokState × TokenM) : TokState × TokenM :=
  if firstChar = '*' then
    if token.length < 2 then invalidTok
    else
      match jsParseFloat (token.data.drop 1) with
      | none => invalidTok
      | some count =>
        if ¬(count = ((jsOrZero count : Int) : Rat)) || count < 1 then invalidTok
        else (t3, ⟨.arrayCountT, tokenStart, some (.n ((jsOrZero count : Int) : Rat))⟩)
  else
    match jsParseFloat token.data with
    | none => invalidTok
    | some number => (t3, ⟨.numberT, tokenStart, some (.n number)⟩)

/-- The default scan branch of `nextToken()` (lines 132-201): scan to a
    break character, rewind one position, and classify the scanned run. -/
def scanRunToken (t1 : TokState) (firstChar : Char) : TokState × TokenM :=
  classifyRun ⟨(scanTokenRun t1).source, (scanTokenRun t1).offset - 1, (scanTokenRun t1).lastChar⟩
    t1.offset firstChar
    (substring (scanTokenRun t1).source t1.offset (scanTokenRun t1).offset)
    (substring (scanTokenRun t1).source t1.offset ((scanTokenRun t1).offset + 1))
where
  /-- dispatch on `firstChar`; `invalidStr` is the `invalid()` value string
      `substring(tokenStart, tokenEnd + 1)`. -/
  classifyRun (t3 : TokState) (tokenStart : Int) (firstChar : Char) (token invalidStr : String) :
      TokState × TokenM :=
    if isAlphaChar firstChar then
      classifyAlpha t3 tokenStart token (t3, ⟨.invalid, tokenStart, some (.s invalidStr)⟩)
    else if firstChar = '*' || firstChar = '-' || isDigitChar firstChar then
      classifyNumeric t3 tokenStart firstChar token (t3, ⟨.invalid, tokenStart, some (.s invalidStr)⟩)
    else
      (t3, ⟨.invalid, tokenStart, some (.s invalidStr)⟩)

/-- The non-comment branches of `nextToken()` (lines 95-201), for a state
    `t1` just positioned by `skipWS` on the in-bounds character `c`. -/
def dispatchToken (t1 : TokState) (c : Char) : TokState × TokenM :=
  if c = '"' then
    if (scanStringLit t1).lastChar ≠ some '"' then
      ((scanStringLit t1),
       ⟨.invalid, t1.offset,
        some (.s (substring (scanStringLit t1).source t1.offset ((scanStringLit t1).offset + 1)))⟩)
    else
      ((scanStringLit t1),
       ⟨.stringT, t1.offset,
        some (.s (substring (scanStringLit t1).source (t1.offset + 1) (scanStringLit t1).offset))⟩)
  else if c = ',' then
    (t1, ⟨.commaT, t1.offset, none⟩)
  else if c = openBraceChar then
    (t1, ⟨.openBlockT, t1.offset, none⟩)
  else if c = closeBraceChar then
    (t1, ⟨.closeBlockT, t1.offset, none⟩)
  else
    scanRunToken t1 c

/-- `nextToken()` (lines 69-202): skip whitespace; past the end clamp the
    cursor to the length and emit EOF; on `;` skip the comment line and
    recurse; otherwise dispatch on the current character. Each comment
    recursion strictly advances the cursor, so `source.length + 1` steps of
    fuel always suffice; the fuel only makes the recursion structural. -/
def nextTokenFuel : Nat → TokState → TokState × TokenM
  | fuel, t =>
    let t1 := skipWS t
    if t1.offset ≥ (t1.source.length : Int) then
      (⟨t1.source, (t1.source.length : Int), t1.lastChar⟩,
       ⟨.eofT, (t1.source.length : Int), none⟩)
    else
      match t1.lastChar with
      | none =>
        -- unreachable: after skipWS landed within bounds, lastChar is the
        -- character at the cursor
        (t1, ⟨.invalid, t1.offset, none⟩)
      | some c =>
        if c = ';' then
          -- single-line comment: skip to EOL and recurse
          match fuel with
          | 0 => (skipToLineEnd t1, ⟨.invalid, t1.offset, none⟩)
          | f + 1 => nextTokenFuel f (skipToLineEnd t1)
        else
          dispatchToken t1 c

def nextToken (t : TokState) : TokState × TokenM :=
  nextTokenFuel (t.source.length + 1) t

theorem classifyAlpha_props (t3 : TokState) (ts : Int) (token : String)
    (inv : TokState × TokenM) (h1 : inv.2.type ≠ .eofT) (h2 : inv.1 = t3) :
    (classifyAlpha t3 ts token inv).2.type ≠ .eofT ∧ (classifyAlpha t3 ts token inv).1 = t3 := by
  unfold classifyAlpha
  repeat' split
  all_goals simp_all

theorem classifyNumeric_props (t3 : TokState) (ts : Int) (fc : Char) (token : String)
    (inv : TokState × TokenM) (h1 : inv.2.type ≠ .eofT) (h2 : inv.1 = t3) :
    (classifyNumeric t3 ts fc token inv).2.type ≠ .eofT ∧
      (classifyNumeric t3 ts fc token inv).1 = t3 := by
  unfold classifyNumeric
  repeat' split
  all_goals simp_all

theorem classifyRun_props (t3 : TokState) (ts : Int) (fc : Char) (token invalidStr : String) :
    (scanRunToken.classifyRun t3 ts fc token invalidStr).2.type ≠ .eofT ∧
      (scanRunToken.classifyRun t3 ts fc token invalidStr).1 = t3 := by
  unfold scanRunToken.classifyRun
  repeat' split
  · exact classifyAlpha_props _ _ _ _ (by simp) rfl
  · exact classifyNumeric_props _ _ _ _ _ (by simp) rfl
  · simp

theorem scanRunToken_props (t1 : TokState) (c : Char) :
    (scanRunToken t1 c).2.type ≠ .eofT ∧ (scanRunToken t1 c).1.source = t1.source := by
  unfold scanRunToken
  have h := classifyRun_props
    ⟨(scanTokenRun t1).source, (scanTokenRun t1).offset - 1, (scanTokenRun t1).lastChar⟩
    t1.offset c
    (substring (scanTokenRun t1).source t1.offset (scanTokenRun t1).offset)
    (substring (scanTokenRun t1).source t1.offset ((scanTokenRun t1).offset + 1))
  refine ⟨h.1, ?_⟩
  rw [h.2]
  exact (scanTokenRun_props t1).1

theorem dispatchToken_props (t1 : TokState) (c : Char) :
    (dispatchToken t1 c).2.type ≠ .eofT ∧ (dispatchToken t1 c).1.source = t1.source := by
  have hs := (scanStringLit_props t1).1
  have hr := scanRunToken_props t1 c
  unfold dispatchToken
  repeat' split
  all_goals simp_all

theorem nextTokenFuel_props :
    ∀ (f : Nat) (t : TokState),
      (nextTokenFuel f t).1.source = t.source ∧
        ((nextTokenFuel f t).2.type = .eofT →
          (nextTokenFuel f t).1.offset = (t.source.length : Int)) := by
  intro f
  induction f with
  | zero =>
    intro t
    have hw := skipWS_props t
    by_cases hb : (skipWS t).offset ≥ ((skipWS t).source.length : Int)
    · simp only [nextTokenFuel, hb, if_true]
      simp [hw.1]
    · cases hlc : (skipWS t).lastChar with
      | none =>
        simp only [nextTokenFuel, hb, if_false, hlc]
        simp [hw.1]
      | some c =>
        by_cases hcs : c = ';'
        · simp only [nextTokenFuel, hb, if_false, hlc, hcs, if_true]
          have h1 := (skipToLineEnd_props (skipWS t)).1
          simp [h1, hw.1]
        · simp only [nextTokenFuel, hb, if_false, hlc, hcs]
          have hd := dispatchToken_props (skipWS t) c
          exact ⟨by rw [hd.2, hw.1], fun he => absurd he hd.1⟩
  | succ f ih =>
    intro t
    have hw := skipWS_props t
    by_cases hb : (skipWS t).offset ≥ ((skipWS t).source.length : Int)
    · simp only [nextTokenFuel, hb, if_true]
      simp [hw.1]
    · cases hlc : (skipWS t).lastChar with
      | none =>
        simp only [nextTokenFuel, hb, if_false, hlc]
        simp [hw.1]
      | some c =>
        by_cases hcs : c = ';'
        · simp only [nextTokenFuel, hb, if_false, hlc, hcs, if_true]
          have hr := ih (skipToLineEnd (skipWS t))
          have h1 := (skipToLineEnd_props (skipWS t)).1
          refine ⟨by rw [hr.1, h1, hw.1], fun he => ?_⟩
          rw [hr.2 he, h1, hw.1]
        · simp only [nextTokenFuel, hb, if_false, hlc, hcs]
          have hd := dispatchToken_props (skipWS t) c
          exact ⟨by rw [hd.2, hw.1], fun he => absurd he hd.1⟩

theorem nextToken_props (t : TokState) :
    (nextToken t).1.source = t.source ∧
      ((nextToken t).2.type = .eofT → (nextToken t).1.offset = (t.source.length : Int)) :=
  nextTokenFuel_props _ t

/-- With the cursor at or past the end of the source, `nextToken` emits
    `EndOfInput` and clamps the cursor back to `source.length`. -/
theorem nextToken_past_end (t : TokState) (h : (t.source.length : Int) ≤ t.offset) :
    nextToken t =
      (⟨t.source, (t.source.length : Int), none⟩, ⟨.eofT, (t.source.length : Int), none⟩) := by
  have h1 : skipWS t = ⟨t.source, t.offset + 1, none⟩ :=
    scanLoopFuel_past_end _ _ t (by omega)
  unfold nextToken
  rw [nextTokenFuel, h1]
  simp [ge_iff_le, show (t.source.length : Int) ≤ t.offset + 1 from by omega]

/-- C10: calling `nextToken()` again after it has returned `EndOfInput` is
    safe: the tokenizer clamps its cursor to the source length and every
    subsequent call (any number of iterations later) returns `EndOfInput`
    again with the cursor still clamped; no out-of-bounds read exists
    (`charAt` is guarded). -/
theorem nextToken_post_eof_safe (t : TokState)
    (h : (nextToken t).2.type = .eofT) :
    (nextToken t).1.offset = (t.source.length : Int) ∧
      ∀ n : Nat,
        (nextToken ((fun st => (nextToken st).1)^[n] (nextToken t).1)).2.type = .eofT ∧
          (nextToken ((fun st => (nextToken st).1)^[n] (nextToken t).1)).1.offset
            = (t.source.length : Int) := by
  have hp := nextToken_props t
  have hoff := hp.2 h
  have hsrc := hp.1
  refine ⟨hoff, ?_⟩
  have key : ∀ n : Nat,
      ((fun st => (nextToken st).1)^[n] (nextToken t).1).source = t.source ∧
        ((fun st => (nextToken st).1)^[n] (nextToken t).1).offset = (t.source.length : Int) := by
    intro n
    induction n with
    | zero => exact ⟨hsrc, hoff⟩
    | succ n ih =>
      rw [Function.iterate_succ_apply']
      have hpe := nextToken_past_end ((fun st => (nextToken st).1)^[n] (nextToken t).1)
        (by rw [ih.2, ih.1])
      rw [hpe]
      exact ⟨ih.1, by rw [ih.1]⟩
  intro n
  have hn := key n
  have hpe := nextToken_past_end ((fun st => (nextToken st).1)^[n] (nextToken t).1)
    (by rw [hn.2, hn.1])
  rw [hpe]
  exact ⟨rfl, by rw [hn.1]⟩

/-- Witness for C10 at the concrete empty source. -/
theorem nextToken_post_eof_safe_witness :
    (nextToken (initTokState [])).2.type = .eofT ∧
      ((nextToken (initTokState [])).1.offset = (((initTokState []).source.length : Nat) : Int) ∧
        ∀ n : Nat,
          (nextToken ((fun st => (nextToken st).1)^[n] (nextToken (initTokState [])).1)).2.type
              = .eofT ∧
            (nextToken ((fun st => (nextToken st).1)^[n] (nextToken (initTokState [])).1)).1.offset
              = (((initTokState []).source.length : Nat) : Int)) :=
  ⟨by decide, nextToken_post_eof_safe (initTokState []) (by decide)⟩

/-- A scan loop over a source whose characters after position `i` all
    satisfy `cont` runs to the end of the input (fuel permitting). -/
theorem scanLoopFuel_run_to_end (cont : Char → Bool) :
    ∀ (f : Nat) (src : List Char) (i : Int) (lc : Option Char),
      -1 ≤ i → i < (src.length : Int) → (src.length : Int) ≤ i + 1 + f →
      (∀ j : Nat, i < (j : Int) → j < src.length → cont (src.getD j ' ') = true) →
      scanLoopFuel cont f ⟨src, i, lc⟩ = ⟨src, (src.length : Int), none⟩ := by
  intro f
  induction f with
  | zero =>
    intro src i lc h0 h1 h2 hall
    have hpe := scanLoopFuel_past_end cont 0 ⟨src, i, lc⟩ (by simp; omega)
    rw [hpe]
    have : i + 1 = (src.length : Int) := by omega
    rw [this]
  | succ f ih =>
    intro src i lc h0 h1 h2 hall
    by_cases hend : i + 1 < (src.length : Int)
    · have hlt : (i + 1).toNat < src.length := by omega
      have hget : src.get? (i + 1).toNat = some (src.getD (i + 1).toNat ' ') := by
        rw [List.get?_eq_getElem?, List.getElem?_eq_getElem hlt]
        simp [List.getD_eq_getElem?_getD, List.getElem?_eq_getElem hlt]
      have hc : (nextChar ⟨src, i, lc⟩).2 = some (src.getD (i + 1).toNat ' ') := by
        unfold nextChar charAt
        simp only [hend, if_true]
        simp only [show (0 : Int) ≤ i + 1 from by omega, if_true]
        exact hget
      have hcont := hall (i + 1).toNat (by omega) hlt
      have h1' : (nextChar ⟨src, i, lc⟩).1 = ⟨src, i + 1, some (src.getD (i + 1).toNat ' ')⟩ := by
        unfold nextChar charAt
        simp only [hend, if_true]
        simp only [show (0 : Int) ≤ i + 1 from by omega, if_true]
        simp [List.getElem?_eq_getElem hlt, List.getD_eq_getElem?_getD]
      rw [scanLoopFuel_step cont f ⟨src, i, lc⟩ _ hc hcont, h1']
      exact ih src (i + 1) _ (by omega) hend (by omega) (fun j hj1 hj2 => hall j (by omega) hj2)
    · have hpe := scanLoopFuel_past_end cont (f + 1) ⟨src, i, lc⟩ (by simp; omega)
      rw [hpe]
      have : i + 1 = (src.length : Int) := by omega
      rw [this]

/-- `skipWS` of a fresh tokenizer whose first character is not whitespace
    stops on that character. -/
theorem skipWS_init_nonws (c : Char) (cs : List Char) (h : isWSChar c = false) :
    skipWS (initTokState (c :: cs)) = ⟨c :: cs, 0, some c⟩ := by
  unfold skipWS initTokState
  have hc : (nextChar ⟨c :: cs, -1, none⟩).2 = some c := by
    unfold nextChar charAt
    simp
  have h1 : (nextChar ⟨c :: cs, -1, none⟩).1 = ⟨c :: cs, 0, some c⟩ := by
    unfold nextChar charAt
    simp
  rw [scanLoopFuel_stop isWSChar (c :: cs).length ⟨c :: cs, -1, none⟩ c hc h]
  exact h1

/-- An alphabetic character is not whitespace and is none of the
    single-character token starters. -/
theorem isAlphaChar_facts (c : Char) (h : isAlphaChar c = true) :
    isWSChar c = false ∧ c ≠ ';' ∧ c ≠ '"' ∧ c ≠ ',' ∧
      c ≠ openBraceChar ∧ c ≠ closeBraceChar := by
  have hne : ∀ d : Char, isAlphaChar d = false → c ≠ d := by
    intro d hd he
    subst he
    rw [h] at hd
    cases hd
  refine ⟨?_, hne ';' (by decide), hne '"' (by decide), hne ',' (by decide),
    hne openBraceChar (by decide), hne closeBraceChar (by decide)⟩
  have h1 := hne ' ' (by decide)
  have h2 := hne '\t' (by decide)
  have h3 := hne '\r' (by decide)
  have h4 := hne '\n' (by decide)
  simp [isWSChar, h1, h2, h3, h4]

/-- C9: a token whose first character is an ASCII letter (scanned to a
    whitespace/comma/brace boundary, here: to the end of the source) is
    returned as a `Key` — with value the label minus the trailing `:` —
    exactly when it is at least two characters long and ends in `:`;
    except that the exact bare words `T` and `Y` are returned as `String`
    tokens; any other letter-initial token is `Invalid`. -/
theorem fbxAlphaTokenClassification (c : Char) (cs : List Char)
    (halpha : isAlphaChar c = true)
    (hnb : ∀ x ∈ c :: cs, isBreakChar x = false) :
    (nextToken (initTokState (c :: cs))).2 =
      (if String.mk (c :: cs) = "T" || String.mk (c :: cs) = "Y" then
        (⟨.stringT, 0, some (.s (String.mk (c :: cs)))⟩ : TokenM)
      else if (String.mk (c :: cs)).length < 2 || (String.mk (c :: cs)).back ≠ ':' then
        ⟨.invalid, 0, some (.s (String.mk (c :: cs)))⟩
      else
        ⟨.keyT, 0, some (.s ((String.mk (c :: cs)).dropRight 1))⟩) := by
  obtain ⟨hws, hsemi, hquot, hcomma, hob, hcb⟩ := isAlphaChar_facts c halpha
  have hskip := skipWS_init_nonws c cs hws
  have hlen : 0 < (c :: cs).length := by simp
  have hrun : scanTokenRun ⟨c :: cs, 0, some c⟩ = ⟨c :: cs, ((c :: cs).length : Int), none⟩ := by
    unfold scanTokenRun
    dsimp only
    refine scanLoopFuel_run_to_end _ (c :: cs).length (c :: cs) 0 (some c) (by omega)
      (by exact_mod_cast hlen) (by omega) ?_
    intro j hj1 hj2
    rw [List.getD_eq_getElem?_getD, List.getElem?_eq_getElem hj2]
    simp only [Option.getD_some]
    have hmem := List.getElem_mem hj2
    simp [hnb _ hmem]
  have hsub1 : substring (c :: cs) 0 ((c :: cs).length : Int) = String.mk (c :: cs) := by
    unfold substring
    simp
  have hsub2 : substring (c :: cs) 0 (((c :: cs).length : Int) + 1) = String.mk (c :: cs) := by
    unfold substring
    have h1 : (((c :: cs).length : Int) + 1 - 0).toNat = (c :: cs).length + 1 := by omega
    have h2 : cs.take (cs.length + 1) = cs := List.take_of_length_le (by omega)
    rw [h1]
    simp [h2]
  unfold nextToken
  simp only [nextTokenFuel]
  rw [hskip]
  simp only [initTokState]
  rw [if_neg (by simp)]
  simp only [hsemi, if_false]
  unfold dispatchToken
  rw [if_neg hquot, if_neg hcomma, if_neg hob, if_neg hcb]
  unfold scanRunToken
  rw [hrun]
  simp only []
  unfold scanRunToken.classifyRun
  rw [if_pos halpha]
  unfold classifyAlpha
  rw [hsub1, hsub2]
  split_ifs <;> rfl

/-- Witness for C9 at the concrete token `K:` (a Key). -/
theorem fbxAlphaTokenClassification_witness :
    (isAlphaChar 'K' = true ∧ ∀ x ∈ 'K' :: [':'], isBreakChar x = false) ∧
      (nextToken (initTokState ('K' :: [':']))).2 =
        (if String.mk ('K' :: [':']) = "T" || String.mk ('K' :: [':']) = "Y" then
          (⟨.stringT, 0, some (.s (String.mk ('K' :: [':'])))⟩ : TokenM)
        else if (String.mk ('K' :: [':'])).length < 2 ||
            (String.mk ('K' :: [':'])).back ≠ ':' then
          ⟨.invalid, 0, some (.s (String.mk ('K' :: [':'])))⟩
        else
          ⟨.keyT, 0, some (.s ((String.mk ('K' :: [':'])).dropRight 1))⟩) :=
  ⟨⟨by decide, by decide⟩, fbxAlphaTokenClassification 'K' [':'] (by decide) (by decide)⟩

/-! ## Shared parser types (asset-fbx.ts lines 9-112) -/

inductive FBXBlockAction where
  | enter
  | skip
deriving DecidableEq, Repr

inductive FBXPropertyType where
  | unknown
  | int
  | double
  | bool
  | time
  | string
  | vector3D
  | vector4D
  | object
  | empty
deriving DecidableEq, Repr

/-- `fbxTypeNameMapping` (lines 33-70) with the JS `|| Unknown` default for
    names outside the table. -/
def fbxTypeNameMapping (t : String) : FBXPropertyType :=
  if t = "enum" || t = "int" || t = "integer" then .int
  else if t = "float" || t = "double" || t = "number" || t = "ulonglong" ||
      t = "fieldofview" || t = "fieldofviewx" || t = "fieldofviewy" || t = "roll" ||
      t = "opticalcenterx" || t = "opticalcentery" then .double
  else if t = "bool" || t = "visibility" || t = "visibility inheritance" then .bool
  else if t = "ktime" then .time
  else if t = "kstring" || t = "datetime" then .string
  else if t = "vector3d" || t = "vector" || t = "color" || t = "colorrgb" ||
      t = "lcl translation" || t = "lcl rotation" || t = "lcl scaling" then .vector3D
  else if t = "colorandalpha" then .vector4D
  else if t = "object" then .object
  else if t = "compound" then .empty
  else .unknown

/-- The string payload of a value; in the source the corresponding
    positions are always strings (`<string>` casts). -/
def valAsStr : FBXValueM → String
  | .str s => s
  | _ => ""

structure FBXProp70Prop where
  name : String
  typeName : String
  type : FBXPropertyType
  values : List FBXValueM
deriving DecidableEq, Repr

/-- `toLowerCase()` on the ASCII type names the mapping table consults
    (`String.toLower` itself does not reduce in the kernel). -/
def jsToLower (s : String) : String := String.mk (s.data.map Char.toLower)

/-- `interpretProp70P` (lines 79-94); its `assert(pValues.length >= 4)` is
    checked by the caller (`reportProperty`) in this model. -/
def interpretProp70P (pValues : List FBXValueM) : FBXProp70Prop :=
  let typeName := valAsStr (pValues.getD 1 (.str ""))
  { name := valAsStr (pValues.getD 0 (.str ""))
    typeName := typeName
    type := fbxTypeNameMapping (jsToLower typeName)
    values := pValues.drop 4 }

/-- Observable delegate callbacks, in call order. `blockEv` records the
    delegate's reply; `errorEv` is `delegate.error`; `assertFailEv` models
    a thrown `assert`, which aborts the parse loop. -/
inductive PEvent where
  | blockEv (name : String) (vals : List FBXValueM) (reply : FBXBlockAction)
  | endBlockEv
  | propertyEv (name : String) (vals : List FBXValueM)
  | typedPropertyEv (name : String) (type : FBXPropertyType) (typeName : String)
      (vals : List FBXValueM)
  | errorEv (msg : String)
  | assertFailEv (msg : String)
deriving DecidableEq, Repr

/-- A parser delegate: only `block`'s return value feeds back into the
    parser. A deterministic stateful delegate is a function of the call
    history, so the reply may depend on the events emitted so far. -/
structure DelegateM where
  blockReply : List PEvent → String → List FBXValueM → FBXBlockAction

/-- The delegate that always replies `Enter`. -/
def enterDelegate : DelegateM := ⟨fun _ _ _ => .enter⟩

/-! ## Text parser state machine (FBXTextParser, asset-fbx-text.ts lines 206-482) -/

def expKey : Nat := 1
def expValue : Nat := 2
def expComma : Nat := 4
def expOpen : Nat := 8
def expClose : Nat := 16
def expValueOrOpen : Nat := expValue ||| expOpen
def expCommaOrOpenOrKey : Nat := expKey ||| expOpen ||| expComma

/-- The parser's mutable fields (lines 222-234). -/
structure PState where
  expect : Nat
  expectNextKey : Option String
  eof : Bool
  depth : Int
  inProp70Block : Bool
  skippingUntilDepth : Int
  array : Option ArrVal
  arrayLength : Nat
  arrayIndex : Nat
  values : List FBXValueM
deriving DecidableEq, Repr

def initPState : PState := ⟨expKey, none, false, 0, false, 1000, none, 0, 0, []⟩

/-- `values_[0]` viewed as a string (the pending key, pushed by the Key
    case, is always a string). -/
def valHead : List FBXValueM → String
  | .str s :: _ => s
  | _ => ""

/-- `arrayForKey` (lines 298-326): the element type of the decoded array
    is chosen from the preceding field name; unknown names default to a
    Float64 array (with a console warning). -/
def arrayForKey (key : String) (elementCount : Nat) : ArrVal :=
  if key = "PolygonVertexIndex" || key = "UVIndex" || key = "Edges" || key = "Materials" ||
      key = "KeyAttrFlags" || key = "KeyAttrRefCount" then
    ⟨.i32, elementCount, []⟩
  else if key = "KeyValueFloat" || key = "KeyAttrDataFloat" then
    ⟨.f32, elementCount, []⟩
  else if key = "Vertices" || key = "Normals" || key = "NormalsW" || key = "UV" ||
      key = "KeyTime" then
    ⟨.f64, elementCount, []⟩
  else
    ⟨.f64, elementCount, []⟩

/-- `unexpected` (lines 241-250): report via `delegate.error` and stop. -/
def unexpectedTok (s : PState) (tok : TokenM) : PState × List PEvent :=
  if tok.type = .invalid then
    ({ s with eof := true }, [.errorEv "Invalid token"])
  else
    ({ s with eof := true }, [.errorEv "Unexpected token"])

/-- `reportProperty` (lines 277-295): flush the pending values as a
    (typed) property; suppressed inside a skipped subtree. Inside a
    Properties70 block the record must be a `P` with at least 4 values
    (assertions). -/
def reportProperty (s : PState) : PState × List PEvent :=
  let propName := valHead s.values
  let vals := s.values.tail
  if s.depth ≤ s.skippingUntilDepth then
    if s.inProp70Block then
      if propName = "P" then
        if 4 ≤ vals.length then
          let p := interpretProp70P vals
          ({ s with values := [] }, [.typedPropertyEv p.name p.type p.typeName p.values])
        else ({ s with eof := true }, [.assertFailEv "A P must have 4 or more values."])
      else
        ({ s with eof := true },
         [.assertFailEv "Only P properties are allowed in a Properties70 block."])
    else
      ({ s with values := [] }, [.propertyEv propName vals])
  else
    ({ s with values := [] }, [])

/-- `reportBlock` (lines 253-274): no delegate call for the `a:` array
    wrapper (array mode) or for `Properties70` (which only sets the flag);
    otherwise invoke `delegate.block` unless inside a skipped subtree. -/
def reportBlock (δ : DelegateM) (evs : List PEvent) (s : PState) :
    PState × List PEvent × FBXBlockAction :=
  let blockName := valHead s.values
  match s.array with
  | none =>
    if blockName = "Properties70" then
      ({ s with inProp70Block := true, values := [] }, [], .enter)
    else if s.depth ≤ s.skippingUntilDepth then
      let reply := δ.blockReply evs blockName s.values.tail
      ({ s with values := [] }, [.blockEv blockName s.values.tail reply], reply)
    else
      ({ s with values := [] }, [], .enter)
  | some _ => (s, [], .enter)

def tokVal (tok : TokenM) : FBXValueM :=
  match tok.val with
  | some (.s x) => .str x
  | some (.n q) => .num q
  | none => .str ""

def tokValStr (tok : TokenM) : String :=
  match tok.val with
  | some (.s x) => x
  | _ => ""

def tokValRat (tok : TokenM) : Rat :=
  match tok.val with
  | some (.n q) => q
  | _ => 0

/-- One iteration of the `parse()` loop (lines 329-480) on one token.
    Returns the successor state and the delegate events of this step;
    `evs` is the event history (visible to the delegate's `block` reply). -/
def stepToken (δ : DelegateM) (evs : List PEvent) (s : PState) (tok : TokenM) :
    PState × List PEvent :=
  match tok.type with
  | .keyT =>
    if s.expect &&& expKey ≠ 0 then
      if s.expectNextKey = none ∨ s.expectNextKey = some (tokValStr tok) then
        if tokValStr tok ≠ "a" then
          let r1 : PState × List PEvent :=
            if s.values.length > 0 then reportProperty s else (s, [])
          if r1.1.eof then r1
          else
            ({ r1.1 with values := r1.1.values ++ [.str (tokValStr tok)],
                         expect := expValueOrOpen, expectNextKey := none }, r1.2)
        else
          ({ s with expect := expValueOrOpen, expectNextKey := none }, [])
      else unexpectedTok s tok
    else unexpectedTok s tok
  | .stringT =>
    -- [[fallthrough]] with Number below; in array mode only numbers are legal
    stepValueToken s tok
  | .numberT =>
    stepValueToken s tok
  | .arrayCountT =>
    if s.expectNextKey = none ∧ s.expect = expValueOrOpen then
      let a := arrayForKey (valHead s.values) (tokValRat tok).num.toNat
      ({ s with array := some a, arrayIndex := 0, arrayLength := a.size,
                expect := expOpen, expectNextKey := some "a" }, [])
    else unexpectedTok s tok
  | .openBlockT =>
    if s.expect &&& expOpen ≠ 0 then
      if s.values.length = 0 then
        -- assert(this.values_.length > 0) in reportBlock
        ({ s with eof := true }, [.assertFailEv "reportBlock: no pending values"])
      else
        let r := reportBlock δ evs s
        let s2 := if r.2.2 = .skip then { r.1 with skippingUntilDepth := r.1.depth } else r.1
        let s3 := { s2 with depth := s2.depth + 1 }
        ({ s3 with expect := if s3.expectNextKey = none then expKey ||| expClose else expKey },
         r.2.1)
    else unexpectedTok s tok
  | .closeBlockT =>
    if s.expectNextKey = none ∧ s.expect &&& expClose ≠ 0 then
      let r1 : PState × List PEvent :=
        if s.values.length > 0 then reportProperty s else (s, [])
      if r1.1.eof then r1
      else
        let r2 : PState × List PEvent :=
          match r1.1.array with
          | some _ => ({ r1.1 with array := none }, ([] : List PEvent))
          | none =>
            if r1.1.inProp70Block then ({ r1.1 with inProp70Block := false }, [])
            else if r1.1.depth ≤ r1.1.skippingUntilDepth then (r1.1, [.endBlockEv])
            else (r1.1, [])
        let s3 : PState := { r2.1 with depth := r2.1.depth - 1 }
        let s4 : PState :=
          if s3.depth = s3.skippingUntilDepth then { s3 with skippingUntilDepth := 1000 }
          else s3
        ({ s4 with expect := if s4.depth > 0 then expKey ||| expClose else expKey },
         r1.2 ++ r2.2)
    else unexpectedTok s tok
  | .commaT =>
    if s.expectNextKey = none ∧ s.expect &&& expComma ≠ 0 then
      ({ s with expect := expValue }, [])
    else unexpectedTok s tok
  | .invalid => unexpectedTok s tok
  | .eofT => ({ s with eof := true }, [])
where
  /-- the shared String/Number case (lines 359-392). -/
  stepValueToken (s : PState) (tok : TokenM) : PState × List PEvent :=
    if s.expectNextKey = none ∧ s.expect &&& expValue ≠ 0 then
      match s.array with
      | some a =>
        if tok.type ≠ .numberT then
          ({ s with eof := true }, [.errorEv "Only numbers are allowed in arrays"])
        else
          let a2 := { a with data := a.data ++ [tokValRat tok] }
          let i2 := s.arrayIndex + 1
          let s1 := { s with array := some a2, arrayIndex := i2 }
          let s2 :=
            if i2 = s.arrayLength then
              { s1 with values := s1.values ++ [.arr a2], expect := expClose }
            else
              { s1 with expect := expComma }
          (if s2.depth > 0 then { s2 with expect := s2.expect ||| expClose } else s2, [])
      | none =>
        let s1 := { s with values := s.values ++ [tokVal tok], expect := expCommaOrOpenOrKey }
        (if s1.depth > 0 then { s1 with expect := s1.expect ||| expClose } else s1, [])
    else unexpectedTok s tok

/-- The `do ... while (!this.eof_)` loop of `parse()` over a token list. -/
def runTokens (δ : DelegateM) : PState → List PEvent → List TokenM → PState × List PEvent
  | s, evs, [] => (s, evs)
  | s, evs, t :: ts =>
    if s.eof then (s, evs)
    else
      let r := stepToken δ evs s t
      runTokens δ r.1 (evs ++ r.2) ts

def isEnterBlockEv : PEvent → Bool
  | .blockEv _ _ .enter => true
  | _ => false

def isEndBlockEv : PEvent → Bool
  | .endBlockEv => true
  | _ => false

def isErrorEv : PEvent → Bool
  | .errorEv _ => true
  | .assertFailEv _ => true
  | _ => false

/-! ## Well-formed input documents and their token serialization

A "well-formed input document" is the token stream of a document AST:
properties carry at least one value, a `Properties70` block contains only
`P` records (4 leading strings plus a payload), arrays are written as
`Key: *N` followed by an `a:`-wrapped comma-separated list of exactly `N`
numbers, and no label is the reserved wrapper name `a` (nor is a block
named `Properties70` other than through the dedicated constructor). -/

inductive SVal where
  | num (q : Rat)
  | str (s : String)
deriving DecidableEq, Repr

def svalToFBX : SVal → FBXValueM
  | .num q => .num q
  | .str s => .str s

def svalTok : SVal → TokenM
  | .num q => ⟨.numberT, 0, some (.n q)⟩
  | .str s => ⟨.stringT, 0, some (.s s)⟩

/-- A `P` record of a Properties70 block: name, type name (twice), flags,
    then the payload values. -/
structure P70 where
  pname : String
  typeName : String
  typeNameDup : String
  flags : String
  vals : List SVal
deriving DecidableEq, Repr

inductive FItem where
  | prop (name : String) (v0 : SVal) (vs : List SVal)
  | block (name : String) (vals : List SVal) (children : List FItem)
  | prop70 (ps : List P70)
  | arrayProp (name : String) (n0 : Rat) (ns : List Rat)

def keyTok (n : String) : TokenM := ⟨.keyT, 0, some (.s n)⟩
def openTok : TokenM := ⟨.openBlockT, 0, none⟩
def closeTok : TokenM := ⟨.closeBlockT, 0, none⟩
def commaTok : TokenM := ⟨.commaT, 0, none⟩
def numTok (q : Rat) : TokenM := ⟨.numberT, 0, some (.n q)⟩
def eofTok : TokenM := ⟨.eofT, 0, none⟩

/-- `, v , v , v ...` continuation of a value list. -/
def commaVals (vs : List SVal) : List TokenM :=
  vs.bind (fun v => [commaTok, svalTok v])

/-- `Name: v0, v1, ...` -/
def propSerialize (name : String) (v0 : SVal) (vs : List SVal) : List TokenM :=
  keyTok name :: svalTok v0 :: commaVals vs

/-- A `P` record is serialized exactly like a property named `P` whose
    first four values are the four strings. -/
def serializeP70 (p : P70) : List TokenM :=
  propSerialize "P" (.str p.pname)
    ([.str p.typeName, .str p.typeNameDup, .str p.flags] ++ p.vals)

mutual
def serializeItem : FItem → List TokenM
  | .prop name v0 vs => propSerialize name v0 vs
  | .block name vals children =>
    keyTok name ::
      ((match vals with
        | [] => []
        | v :: rest => svalTok v :: commaVals rest)
      ++ openTok :: (serializeItems children ++ [closeTok]))
  | .prop70 ps =>
    keyTok "Properties70" :: openTok :: (ps.bind serializeP70 ++ [closeTok])
  | .arrayProp name n0 ns =>
    [keyTok name, ⟨.arrayCountT, 0, some (.n ((1 + ns.length : Nat) : Rat))⟩,
     openTok, keyTok "a", numTok n0]
    ++ ns.bind (fun q => [commaTok, numTok q])
    ++ [closeTok]

def serializeItems : List FItem → List TokenM
  | [] => []
  | i :: is => serializeItem i ++ serializeItems is
end

mutual
def wfItem : FItem → Bool
  | .prop name _ _ => name ≠ "a"
  | .block name _ children =>
    name ≠ "a" && name ≠ "Properties70" && wfItems children
  | .prop70 _ => true
  | .arrayProp name _ _ => name ≠ "a"

def wfItems : List FItem → Bool
  | [] => true
  | i :: is => wfItem i && wfItems is
end

mutual
/-- Nesting contribution of one item: blocks, Properties70 blocks and
    `a:` wrappers each open one level. -/
def heightItem : FItem → Nat
  | .prop _ _ _ => 0
  | .block _ _ children => 1 + heightItems children
  | .prop70 _ => 1
  | .arrayProp _ _ _ => 1

def heightItems : List FItem → Nat
  | [] => 0
  | i :: is => max (heightItem i) (heightItems is)
end

/-- The pending `values_` left behind after an item (a property stays
    pending until the next key or block close flushes it). -/
def pendingOf : FItem → List FBXValueM
  | .prop name v0 vs => .str name :: svalToFBX v0 :: vs.map svalToFBX
  | _ => []

def pendAfterItems (l : List FItem) (pend : List FBXValueM) : List FBXValueM :=
  l.foldl (fun p i => pendingOf i) pend

/-- `arrayLength_` after an item (set by ArrayCount, never reset). -/
def alAfter : FItem → Nat → Nat
  | .arrayProp _ _ ns, _ => 1 + ns.length
  | _, al => al

def alAfterItems (l : List FItem) (al : Nat) : Nat :=
  l.foldl (fun a i => alAfter i a) al

/-! ### Parser states between items -/

def closeMask (d : Int) : Nat := if 0 < d then expClose else 0

/-- The parser state at an item boundary at depth `d`: `ip` is the
    Properties70 flag, `sd` the skip floor, `pend` the pending values of
    the previous property (empty after a block-like item). -/
def gBetween (ip : Bool) (d sd : Int) (al ai : Nat) (pend : List FBXValueM) : PState :=
  ⟨if pend.isEmpty then expKey ||| closeMask d else expCommaOrOpenOrKey ||| closeMask d,
   none, false, d, ip, sd, none, al, ai, pend⟩

/-- State right after a key: expecting a value or a block open. -/
def gAfterKey (ip : Bool) (d sd : Int) (al ai : Nat) (vals : List FBXValueM) : PState :=
  ⟨expValueOrOpen, none, false, d, ip, sd, none, al, ai, vals⟩

/-- State right after a comma in a value list. -/
def gComma (ip : Bool) (d sd : Int) (al ai : Nat) (vals : List FBXValueM) : PState :=
  ⟨expValue, none, false, d, ip, sd, none, al, ai, vals⟩

/-- The events a flush of `pend` produces (none inside a skipped subtree;
    a typed property inside a Properties70 block). -/
def stepFlush (ip : Bool) (d sd : Int) (pend : List FBXValueM) : List PEvent :=
  if pend.isEmpty then []
  else if d ≤ sd then
    if ip then
      [.typedPropertyEv (interpretProp70P pend.tail).name (interpretProp70P pend.tail).type
        (interpretProp70P pend.tail).typeName (interpretProp70P pend.tail).values]
    else [.propertyEv (valHead pend) pend.tail]
  else []

/-- Inside a Properties70 block the pending values are either empty or a
    flushable `P` record. -/
def pendOK (ip : Bool) (pend : List FBXValueM) : Prop :=
  ip = true → pend = [] ∨ (valHead pend = "P" ∧ 4 ≤ pend.tail.length)

theorem initPState_eq : initPState = gBetween false 0 1000 0 0 [] := by
  unfold initPState gBetween closeMask
  simp


theorem runTokens_eof (δ : DelegateM) (s : PState) (evs : List PEvent) (h : s.eof = true) :
    ∀ ys : List TokenM, runTokens δ s evs ys = (s, evs) := by
  intro ys
  cases ys <;> simp [runTokens, h]

theorem runTokens_cons (δ : DelegateM) (s : PState) (evs : List PEvent) (t : TokenM)
    (ts : List TokenM) (h : s.eof = false) :
    runTokens δ s evs (t :: ts)
      = runTokens δ (stepToken δ evs s t).1 (evs ++ (stepToken δ evs s t).2) ts := by
  simp [runTokens, h]

theorem runTokens_append (δ : DelegateM) :
    ∀ (xs ys : List TokenM) (s : PState) (evs : List PEvent),
      runTokens δ s evs (xs ++ ys)
        = runTokens δ (runTokens δ s evs xs).1 (runTokens δ s evs xs).2 ys := by
  intro xs
  induction xs with
  | nil => intro ys s evs; rfl
  | cons t ts ih =>
    intro ys s evs
    by_cases h : s.eof
    · simp only [List.cons_append, runTokens, h, if_true]
      exact (runTokens_eof δ s evs h ys).symm
    · simp only [List.cons_append, runTokens, h, Bool.false_eq_true, if_false]
      exact ih ys _ _

theorem gBetween_expect_key (ip : Bool) (d sd : Int) (al ai : Nat) (pend : List FBXValueM) :
    (gBetween ip d sd al ai pend).expect &&& expKey ≠ 0 := by
  unfold gBetween closeMask
  by_cases hp : pend.isEmpty <;> by_cases hd : (0:Int) < d <;> simp [hp, hd] <;> decide

theorem step_key (δ : DelegateM) (evs : List PEvent) (ip : Bool) (d sd : Int) (al ai : Nat)
    (pend : List FBXValueM) (name : String) (hname : name ≠ "a") (hok : pendOK ip pend) :
    stepToken δ evs (gBetween ip d sd al ai pend) (keyTok name)
      = (gAfterKey ip d sd al ai [.str name], stepFlush ip d sd pend) := by
  have hexp := gBetween_expect_key ip d sd al ai pend
  unfold stepToken keyTok
  simp only [tokValStr, hexp, ne_eq, not_false_eq_true, if_true]
  simp only [gBetween, gAfterKey]
  by_cases hp : pend.isEmpty
  · have h0 : pend = [] := List.isEmpty_iff.mp hp
    subst h0
    simp [stepFlush, hname]
  · have hlen : 0 < pend.length := by
      cases pend
      · simp at hp
      · simp
    cases ip
    · by_cases hds : d ≤ sd <;>
        simp [hname, hlen, reportProperty, stepFlush, hp, hds]
    · rcases hok rfl with h0 | ⟨hph, hpl⟩
      · rw [h0] at hp
        simp at hp
      · have hpl2 : 4 ≤ pend.length - 1 := by
          simpa using hpl
        by_cases hds : d ≤ sd <;>
          simp [hname, hlen, reportProperty, stepFlush, hp, hds, hph, hpl2]


theorem tokVal_svalTok (v : SVal) : tokVal (svalTok v) = svalToFBX v := by
  cases v <;> rfl

theorem step_val_afterKey (δ : DelegateM) (evs : List PEvent) (ip : Bool) (d sd : Int)
    (al ai : Nat) (vals : List FBXValueM) (v : SVal) :
    stepToken δ evs (gAfterKey ip d sd al ai vals) (svalTok v)
      = (gBetween ip d sd al ai (vals ++ [svalToFBX v]), []) := by
  cases v <;>
    (unfold stepToken svalTok gAfterKey gBetween
     simp only [stepToken.stepValueToken, tokVal]
     by_cases hd : (0:Int) < d <;>
       simp [hd, closeMask, expValueOrOpen, expCommaOrOpenOrKey, expValue, expKey, expOpen,
             expComma, expClose, svalToFBX])

theorem step_val_afterComma (δ : DelegateM) (evs : List PEvent) (ip : Bool) (d sd : Int)
    (al ai : Nat) (vals : List FBXValueM) (v : SVal) :
    stepToken δ evs (gComma ip d sd al ai vals) (svalTok v)
      = (gBetween ip d sd al ai (vals ++ [svalToFBX v]), []) := by
  cases v <;>
    (unfold stepToken svalTok gComma gBetween
     simp only [stepToken.stepValueToken, tokVal]
     by_cases hd : (0:Int) < d <;>
       simp [hd, closeMask, expValueOrOpen, expCommaOrOpenOrKey, expValue, expKey, expOpen,
             expComma, expClose, svalToFBX])

theorem step_comma (δ : DelegateM) (evs : List PEvent) (ip : Bool) (d sd : Int)
    (al ai : Nat) (pend : List FBXValueM) (hne : ¬ pend.isEmpty = true) :
    stepToken δ evs (gBetween ip d sd al ai pend) commaTok = (gComma ip d sd al ai pend, []) := by
  unfold stepToken commaTok gBetween gComma
  by_cases hd : (0:Int) < d <;>
    simp [hne, hd, closeMask, expCommaOrOpenOrKey, expValue, expKey, expOpen, expComma, expClose]

theorem run_vals (δ : DelegateM) :
    ∀ (vs : List SVal) (evs : List PEvent) (ip : Bool) (d sd : Int) (al ai : Nat)
      (acc : List FBXValueM), ¬ acc.isEmpty = true →
      runTokens δ (gBetween ip d sd al ai acc) evs (commaVals vs)
        = (gBetween ip d sd al ai (acc ++ vs.map svalToFBX), evs) := by
  intro vs
  induction vs with
  | nil =>
    intro evs ip d sd al ai acc hne
    simp [commaVals, runTokens]
  | cons v rest ih =>
    intro evs ip d sd al ai acc hne
    have h1 : commaVals (v :: rest) = commaTok :: svalTok v :: commaVals rest := by
      simp [commaVals]
    rw [h1]
    rw [runTokens_cons _ _ _ _ _ (by rfl)]
    rw [step_comma δ evs ip d sd al ai acc hne]
    rw [runTokens_cons _ _ _ _ _ (by rfl)]
    rw [step_val_afterComma]
    rw [ih _ ip d sd al ai _ (by simp)]
    simp

theorem run_prop (δ : DelegateM) (evs : List PEvent) (ip : Bool) (d sd : Int) (al ai : Nat)
    (pend : List FBXValueM) (name : String) (v0 : SVal) (vs : List SVal)
    (hname : name ≠ "a") (hok : pendOK ip pend) :
    runTokens δ (gBetween ip d sd al ai pend) evs (propSerialize name v0 vs)
      = (gBetween ip d sd al ai (.str name :: svalToFBX v0 :: vs.map svalToFBX),
         evs ++ stepFlush ip d sd pend) := by
  unfold propSerialize
  rw [runTokens_cons _ _ _ _ _ (by rfl)]
  rw [step_key δ evs ip d sd al ai pend name hname hok]
  rw [runTokens_cons _ _ _ _ _ (by rfl)]
  rw [step_val_afterKey]
  rw [run_vals δ vs _ ip d sd al ai _ (by simp)]
  simp


theorem step_open (δ : DelegateM) (evs : List PEvent) (e : Nat) (he : e &&& expOpen ≠ 0)
    (d sd : Int) (al ai : Nat) (name : String) (rest : List FBXValueM) (hd : 0 ≤ d) :
    stepToken δ evs ⟨e, none, false, d, false, sd, none, al, ai, .str name :: rest⟩ openTok
      = (if name = "Properties70" then
           (gBetween true (d + 1) sd al ai [], [])
         else if d ≤ sd then
           (gBetween false (d + 1) (if δ.blockReply evs name rest = .skip then d else sd) al ai [],
            [.blockEv name rest (δ.blockReply evs name rest)])
         else (gBetween false (d + 1) sd al ai [], [])) := by
  have hcm : closeMask (d + 1) = expClose := by
    unfold closeMask
    simp
    omega
  unfold stepToken openTok reportBlock gBetween
  simp only [he, ne_eq, not_false_eq_true, if_true, valHead, hcm]
  by_cases hp : name = "Properties70"
  · simp [hp]
  · by_cases hds : d ≤ sd
    · by_cases hr : δ.blockReply evs name rest = FBXBlockAction.skip <;>
        simp [hp, hds, hr]
    · simp [hp, hds]

theorem step_close (δ : DelegateM) (evs : List PEvent) (ip : Bool) (d sd : Int)
    (al ai : Nat) (pend : List FBXValueM) (hd : 0 < d) (hok : pendOK ip pend) :
    stepToken δ evs (gBetween ip d sd al ai pend) closeTok
      = (gBetween false (d - 1) (if d - 1 = sd then 1000 else sd) al ai [],
         stepFlush ip d sd pend ++ (if ip then [] else if d ≤ sd then [.endBlockEv] else [])) := by
  have hcm : closeMask d = expClose := by
    unfold closeMask
    simp [hd]
  unfold stepToken closeTok gBetween
  simp only [hcm]
  by_cases hp : pend.isEmpty
  · have h0 : pend = [] := List.isEmpty_iff.mp hp
    subst h0
    cases ip <;>
      (by_cases hds : d ≤ sd <;>
        by_cases hrs : d - 1 = sd <;>
          simp [stepFlush, hds, hrs, closeMask, expKey, expClose, expCommaOrOpenOrKey,
                expComma, expOpen, expValue] <;>
          (try (split <;> decide)))
  · have hlen : 0 < pend.length := by
      cases pend
      · simp at hp
      · simp
    cases ip
    · by_cases hds : d ≤ sd <;>
        by_cases hrs : d - 1 = sd <;>
          simp [hlen, reportProperty, stepFlush, hp, hds, hrs, closeMask, expKey, expClose,
                expCommaOrOpenOrKey, expComma, expOpen, expValue] <;>
          (try (split <;> decide))
    · rcases hok rfl with h0 | ⟨hph, hpl⟩
      · rw [h0] at hp
        simp at hp
      · have hpl2 : 4 ≤ pend.length - 1 := by
          simpa using hpl
        by_cases hds : d ≤ sd <;>
          by_cases hrs : d - 1 = sd <;>
            simp [hlen, reportProperty, stepFlush, hp, hds, hrs, hph, hpl2, closeMask, expKey,
                  expClose, expCommaOrOpenOrKey, expComma, expOpen, expValue] <;>
            (try (split <;> decide))


theorem arrayForKey_size (key : String) (n : Nat) : (arrayForKey key n).size = n := by
  unfold arrayForKey
  split_ifs <;> rfl

theorem step_arrayCount (δ : DelegateM) (evs : List PEvent) (d sd : Int) (al ai : Nat)
    (name : String) (count : Nat) :
    stepToken δ evs (gAfterKey false d sd al ai [.str name])
        ⟨.arrayCountT, 0, some (.n (count : Rat))⟩
      = (⟨expOpen, some "a", false, d, false, sd, some (arrayForKey name count), count, 0,
          [.str name]⟩, []) := by
  unfold stepToken gAfterKey
  have hcnt : ((count : Rat)).num.toNat = count := by
    simp [Rat.num_natCast]
  simp [tokValRat, valHead, hcnt, arrayForKey_size]

theorem step_open_arr (δ : DelegateM) (evs : List PEvent) (d sd : Int) (a : ArrVal)
    (alen ai : Nat) (v0 : FBXValueM) (vrest : List FBXValueM) :
    stepToken δ evs ⟨expOpen, some "a", false, d, false, sd, some a, alen, ai, v0 :: vrest⟩ openTok
      = (⟨expKey, some "a", false, d + 1, false, sd, some a, alen, ai, v0 :: vrest⟩, []) := by
  unfold stepToken openTok reportBlock
  simp [expOpen]

theorem step_key_a (δ : DelegateM) (evs : List PEvent) (d sd : Int) (a : ArrVal)
    (alen ai : Nat) (vals : List FBXValueM) :
    stepToken δ evs ⟨expKey, some "a", false, d, false, sd, some a, alen, ai, vals⟩
        (keyTok "a")
      = (⟨expValueOrOpen, none, false, d, false, sd, some a, alen, ai, vals⟩, []) := by
  unfold stepToken keyTok
  simp [tokValStr, expKey]

theorem step_num_fill (δ : DelegateM) (evs : List PEvent) (e : Nat) (he : e &&& expValue ≠ 0)
    (dd sd : Int) (hd : 0 < dd) (el : ElemKind) (size : Nat) (filled : List Rat)
    (idx : Nat) (hidx : idx = filled.length) (vals : List FBXValueM) (q : Rat) :
    stepToken δ evs
        ⟨e, none, false, dd, false, sd, some ⟨el, size, filled⟩, size, idx, vals⟩
        (numTok q)
      = (if idx + 1 = size then
           (⟨expClose, none, false, dd, false, sd, some ⟨el, size, filled ++ [q]⟩, size, size,
             vals ++ [.arr ⟨el, size, filled ++ [q]⟩]⟩, [])
         else
           (⟨expComma ||| expClose, none, false, dd, false, sd, some ⟨el, size, filled ++ [q]⟩,
             size, idx + 1, vals⟩, [])) := by
  subst hidx
  unfold stepToken numTok
  simp only [stepToken.stepValueToken, tokValRat, he, ne_eq, not_false_eq_true, if_true]
  by_cases hf : filled.length + 1 = size
  · simp [hf, hd, expClose]
  · simp [hf, hd]

theorem step_comma_fill (δ : DelegateM) (evs : List PEvent) (dd sd : Int)
    (ar : Option ArrVal) (alen ai : Nat) (vals : List FBXValueM) :
    stepToken δ evs ⟨expComma ||| expClose, none, false, dd, false, sd, ar, alen, ai, vals⟩
        commaTok
      = (⟨expValue, none, false, dd, false, sd, ar, alen, ai, vals⟩, []) := by
  unfold stepToken commaTok
  simp [expComma, expClose, expValue]

theorem run_arr_fill (δ : DelegateM) :
    ∀ (rem : List Rat) (filled : List Rat) (el : ElemKind) (size : Nat) (dd sd : Int)
      (idx : Nat) (vals : List FBXValueM) (evs : List PEvent),
      0 < dd → idx = filled.length → size = filled.length + rem.length → rem ≠ [] →
      runTokens δ
          ⟨expComma ||| expClose, none, false, dd, false, sd, some ⟨el, size, filled⟩, size,
            idx, vals⟩ evs
          (rem.bind (fun q => [commaTok, numTok q]))
        = (⟨expClose, none, false, dd, false, sd, some ⟨el, size, filled ++ rem⟩, size, size,
            vals ++ [.arr ⟨el, size, filled ++ rem⟩]⟩, evs) := by
  intro rem
  induction rem with
  | nil => intro filled el size dd sd idx vals evs _ _ _ hne; exact absurd rfl hne
  | cons q rest ih =>
    intro filled el size dd sd idx vals evs hdd hidx hsz _
    have h1 : (q :: rest).bind (fun x => [commaTok, numTok x])
        = commaTok :: numTok q :: rest.bind (fun x => [commaTok, numTok x]) := by
      simp
    rw [h1]
    rw [runTokens_cons _ _ _ _ _ (by rfl)]
    rw [step_comma_fill]
    rw [runTokens_cons _ _ _ _ _ (by rfl)]
    rw [step_num_fill δ _ expValue (by decide) dd sd hdd el size filled idx hidx vals q]
    by_cases hr : rest = []
    · subst hr
      have hf : idx + 1 = size := by simp at hsz; omega
      rw [if_pos hf]
      simp [runTokens, hf]
    · have hf : ¬ (idx + 1 = size) := by
        have : 0 < rest.length := List.length_pos.mpr hr
        simp at hsz
        omega
      rw [if_neg hf]
      rw [ih (filled ++ [q]) el size dd sd (idx + 1) vals _ hdd (by simp [hidx])
          (by simp at hsz ⊢; omega) hr]
      simp

theorem step_close_arr (δ : DelegateM) (evs : List PEvent) (dd sd : Int) (a : ArrVal)
    (alen ai : Nat) (vals : List FBXValueM) :
    stepToken δ evs ⟨expClose, none, false, dd, false, sd, some a, alen, ai, vals⟩ closeTok
      = (gBetween false (dd - 1) (if dd - 1 = sd then 1000 else sd) alen ai [],
         stepFlush false dd sd vals) := by
  unfold stepToken closeTok gBetween
  by_cases hp : vals.isEmpty
  · have h0 : vals = [] := List.isEmpty_iff.mp hp
    subst h0
    by_cases hds : dd ≤ sd <;>
      by_cases hrs : dd - 1 = sd <;>
        simp [stepFlush, hds, hrs, closeMask, expKey, expClose, expCommaOrOpenOrKey,
              expComma, expOpen, expValue] <;>
        (try (split <;> decide))
  · have hlen : 0 < vals.length := by
      cases vals
      · simp at hp
      · simp
    by_cases hds : dd ≤ sd <;>
      by_cases hrs : dd - 1 = sd <;>
        simp [hlen, reportProperty, stepFlush, hp, hds, hrs, closeMask, expKey, expClose,
              expCommaOrOpenOrKey, expComma, expOpen, expValue] <;>
        (try (split <;> decide))


/-- The array actually committed for `Name: *N \x7b a: n0, n1, ... \x7d`. -/
def arrOf (name : String) (n0 : Rat) (ns : List Rat) : ArrVal :=
  ⟨(arrayForKey name (1 + ns.length)).elem, 1 + ns.length, n0 :: ns⟩

theorem run_arrayProp (δ : DelegateM) (evs : List PEvent) (d sd : Int) (al ai : Nat)
    (pend : List FBXValueM) (name : String) (n0 : Rat) (ns : List Rat)
    (hname : name ≠ "a") (hd : 0 ≤ d) (hok : pendOK false pend) :
    runTokens δ (gBetween false d sd al ai pend) evs (serializeItem (.arrayProp name n0 ns))
      = (gBetween false d (if d = sd then 1000 else sd) (1 + ns.length) (1 + ns.length) [],
         evs ++ stepFlush false d sd pend
             ++ stepFlush false (d + 1) sd [.str name, .arr (arrOf name n0 ns)]) := by
  have harr : arrayForKey name (1 + ns.length)
      = ⟨(arrayForKey name (1 + ns.length)).elem, 1 + ns.length, []⟩ := by
    unfold arrayForKey
    split_ifs <;> rfl
  have hser : serializeItem (.arrayProp name n0 ns)
      = keyTok name :: ⟨.arrayCountT, 0, some (.n ((1 + ns.length : Nat) : Rat))⟩ ::
          openTok :: keyTok "a" :: numTok n0 ::
          (ns.bind (fun q => [commaTok, numTok q]) ++ [closeTok]) := by
    unfold serializeItem
    simp
  rw [hser]
  rw [runTokens_cons _ _ _ _ _ (by rfl)]
  rw [step_key δ evs false d sd al ai pend name hname hok]
  rw [runTokens_cons _ _ _ _ _ (by rfl)]
  rw [step_arrayCount]
  rw [runTokens_cons _ _ _ _ _ (by rfl)]
  rw [harr]
  rw [step_open_arr]
  rw [runTokens_cons _ _ _ _ _ (by rfl)]
  rw [step_key_a]
  rw [runTokens_cons _ _ _ _ _ (by rfl)]
  rw [step_num_fill δ _ expValueOrOpen (by decide) (d + 1) sd (by omega)
      (arrayForKey name (1 + ns.length)).elem (1 + ns.length) [] 0 (by simp) [.str name] n0]
  cases ns with
  | nil =>
    rw [if_pos (by simp)]
    have hb : (([] : List Rat)).bind (fun q => [commaTok, numTok q]) ++ [closeTok]
        = [closeTok] := by simp
    rw [hb]
    rw [runTokens_cons _ _ _ _ _ (by rfl)]
    rw [step_close_arr]
    simp [runTokens, arrOf]
  | cons m ms =>
    rw [if_neg (by simp)]
    rw [runTokens_append]
    rw [run_arr_fill δ (m :: ms) ([] ++ [n0]) _ _ (d + 1) sd (0 + 1) [.str name] _ (by omega)
        (by simp) (by simp) (by simp)]
    rw [runTokens_cons _ _ _ _ _ (by rfl)]
    rw [step_close_arr]
    simp [runTokens, arrOf]


/-- The pending values of a parsed `P` record. -/
def p70PendOf (p : P70) : List FBXValueM :=
  .str "P" :: .str p.pname :: .str p.typeName :: .str p.typeNameDup :: .str p.flags ::
    p.vals.map svalToFBX

/-- Flush events inside a Properties70 block: each `P` record is flushed
    when the next record's key (or the closing brace) arrives. -/
def p70FlushChain (dd sd : Int) : List FBXValueM → List P70 → List PEvent
  | _, [] => []
  | pend, p :: ps => stepFlush true dd sd pend ++ p70FlushChain dd sd (p70PendOf p) ps

theorem pendOK_p70PendOf (p : P70) : pendOK true (p70PendOf p) := by
  intro _
  right
  unfold p70PendOf valHead
  simp

theorem run_p70_list (δ : DelegateM) :
    ∀ (ps : List P70) (pend : List FBXValueM) (dd sd : Int) (al ai : Nat) (evs : List PEvent),
      pendOK true pend →
      runTokens δ (gBetween true dd sd al ai pend) evs (ps.bind serializeP70)
        = (gBetween true dd sd al ai (ps.foldl (fun _ p => p70PendOf p) pend),
           evs ++ p70FlushChain dd sd pend ps) := by
  intro ps
  induction ps with
  | nil =>
    intro pend dd sd al ai evs _
    simp [runTokens, p70FlushChain]
  | cons p rest ih =>
    intro pend dd sd al ai evs hok
    have h1 : (p :: rest).bind serializeP70 = propSerialize "P" (SVal.str p.pname)
        ([SVal.str p.typeName, SVal.str p.typeNameDup, SVal.str p.flags] ++ p.vals)
        ++ rest.bind serializeP70 := by
      simp [serializeP70]
    rw [h1, runTokens_append]
    have hp := run_prop δ evs true dd sd al ai pend "P" (SVal.str p.pname)
        ([SVal.str p.typeName, SVal.str p.typeNameDup, SVal.str p.flags] ++ p.vals)
        (by decide) hok
    rw [hp]
    have hpend : (FBXValueM.str "P" :: svalToFBX (SVal.str p.pname) ::
        List.map svalToFBX ([SVal.str p.typeName, SVal.str p.typeNameDup, SVal.str p.flags]
          ++ p.vals)) = p70PendOf p := by
      simp [p70PendOf, svalToFBX]
    rw [hpend]
    rw [ih (p70PendOf p) dd sd al ai _ (pendOK_p70PendOf p)]
    simp [p70FlushChain]

theorem foldl_p70PendOf_getLast :
    ∀ (l : List P70) (h : l ≠ []) (init : List FBXValueM),
      l.foldl (fun _ q => p70PendOf q) init = p70PendOf (l.getLast h) := by
  intro l
  induction l with
  | nil => intro h; exact absurd rfl h
  | cons p rest ih =>
    intro h init
    cases rest with
    | nil => simp
    | cons r rs =>
      have h2 := ih (by simp) (p70PendOf p)
      have h3 : (p :: r :: rs).foldl (fun _ q => p70PendOf q) init
          = (r :: rs).foldl (fun _ q => p70PendOf q) (p70PendOf p) := by
        simp
      rw [h3, h2]
      congr 1

theorem run_prop70 (δ : DelegateM) (evs : List PEvent) (d sd : Int) (al ai : Nat)
    (pend : List FBXValueM) (ps : List P70) (hd : 0 ≤ d) (hok : pendOK false pend) :
    runTokens δ (gBetween false d sd al ai pend) evs (serializeItem (.prop70 ps))
      = (gBetween false d (if d = sd then 1000 else sd) al ai [],
         evs ++ stepFlush false d sd pend
             ++ p70FlushChain (d + 1) sd [] ps
             ++ stepFlush true (d + 1) sd (ps.foldl (fun _ p => p70PendOf p) [])) := by
  have hser : serializeItem (.prop70 ps)
      = keyTok "Properties70" :: openTok :: (ps.bind serializeP70 ++ [closeTok]) := by
    unfold serializeItem
    simp
  rw [hser]
  rw [runTokens_cons _ _ _ _ _ (by rfl)]
  rw [step_key δ evs false d sd al ai pend "Properties70" (by decide) hok]
  rw [runTokens_cons _ _ _ _ _ (by rfl)]
  rw [show (gAfterKey false d sd al ai [FBXValueM.str "Properties70"] : PState)
      = ⟨expValueOrOpen, none, false, d, false, sd, none, al, ai,
          .str "Properties70" :: []⟩ from rfl]
  rw [step_open δ _ expValueOrOpen (by decide) d sd al ai "Properties70" [] hd]
  rw [if_pos rfl]
  rw [runTokens_append]
  rw [run_p70_list δ ps [] (d + 1) sd al ai _ (fun _ => Or.inl rfl)]
  rw [runTokens_cons _ _ _ _ _ (by rfl)]
  rw [step_close δ _ true (d + 1) sd al ai _ (by omega)
      (by
        cases ps with
        | nil => exact fun _ => Or.inl rfl
        | cons p rest =>
          rw [foldl_p70PendOf_getLast (p :: rest) (by simp)]
          exact pendOK_p70PendOf _)]
  simp [runTokens]

/-! ### Event counting and the balanced-parse induction -/

theorem pendOK_false (pend : List FBXValueM) : pendOK false pend :=
  fun h => nomatch h

theorem stepFlush_counts (ip : Bool) (d sd : Int) (pend : List FBXValueM) :
    (stepFlush ip d sd pend).countP isEnterBlockEv = 0
    ∧ (stepFlush ip d sd pend).countP isEndBlockEv = 0
    ∧ (stepFlush ip d sd pend).countP isErrorEv = 0 := by
  unfold stepFlush
  split_ifs <;> simp [isEnterBlockEv, isEndBlockEv, isErrorEv]

theorem stepFlush_skip (ip : Bool) (d sd : Int) (pend : List FBXValueM) (h : ¬ d ≤ sd) :
    stepFlush ip d sd pend = [] := by
  unfold stepFlush
  split_ifs <;> first | rfl | exact absurd (by assumption) h

theorem p70FlushChain_counts :
    ∀ (ps : List P70) (dd sd : Int) (pend : List FBXValueM),
      (p70FlushChain dd sd pend ps).countP isEnterBlockEv = 0
      ∧ (p70FlushChain dd sd pend ps).countP isEndBlockEv = 0
      ∧ (p70FlushChain dd sd pend ps).countP isErrorEv = 0 := by
  intro ps
  induction ps with
  | nil => intro dd sd pend; simp [p70FlushChain]
  | cons p rest ih =>
    intro dd sd pend
    have h1 := stepFlush_counts true dd sd pend
    have h2 := ih dd sd (p70PendOf p)
    simp [p70FlushChain, List.countP_append, h1.1, h1.2.1, h1.2.2, h2.1, h2.2.1, h2.2.2]

theorem p70FlushChain_skip :
    ∀ (ps : List P70) (dd sd : Int) (pend : List FBXValueM), ¬ dd ≤ sd →
      p70FlushChain dd sd pend ps = [] := by
  intro ps
  induction ps with
  | nil => intro dd sd pend _; rfl
  | cons p rest ih =>
    intro dd sd pend h
    simp [p70FlushChain, stepFlush_skip _ _ _ _ h, ih dd sd (p70PendOf p) h]

theorem step_open_between (δ : DelegateM) (evs : List PEvent) (d sd : Int) (al ai : Nat)
    (name : String) (rest : List FBXValueM) (hd : 0 ≤ d) :
    stepToken δ evs (gBetween false d sd al ai (.str name :: rest)) openTok
      = (if name = "Properties70" then
           (gBetween true (d + 1) sd al ai [], [])
         else if d ≤ sd then
           (gBetween false (d + 1) (if δ.blockReply evs name rest = .skip then d else sd) al ai [],
            [.blockEv name rest (δ.blockReply evs name rest)])
         else (gBetween false (d + 1) sd al ai [], [])) := by
  have hg : gBetween false d sd al ai (.str name :: rest)
      = ⟨expCommaOrOpenOrKey ||| closeMask d, none, false, d, false, sd, none, al, ai,
         .str name :: rest⟩ := by
    unfold gBetween
    simp
  rw [hg]
  exact step_open δ evs (expCommaOrOpenOrKey ||| closeMask d)
    (by unfold closeMask; split <;> decide) d sd al ai name rest hd

theorem step_open_afterKey (δ : DelegateM) (evs : List PEvent) (d sd : Int) (al ai : Nat)
    (name : String) (hd : 0 ≤ d) :
    stepToken δ evs (gAfterKey false d sd al ai [.str name]) openTok
      = (if name = "Properties70" then
           (gBetween true (d + 1) sd al ai [], [])
         else if d ≤ sd then
           (gBetween false (d + 1) (if δ.blockReply evs name [] = .skip then d else sd) al ai [],
            [.blockEv name [] (δ.blockReply evs name [])])
         else (gBetween false (d + 1) sd al ai [], [])) :=
  step_open δ evs expValueOrOpen (by decide) d sd al ai name [] hd


/-- The tokens of a block item up to and including its opening brace. -/
def blockHeadToks (name : String) (vs : List SVal) : List TokenM :=
  keyTok name ::
    ((match vs with
      | [] => []
      | v :: rest => svalTok v :: commaVals rest) ++ [openTok])

theorem serializeItem_block_split (name : String) (vs : List SVal) (children : List FItem) :
    serializeItem (.block name vs children)
      = blockHeadToks name vs ++ (serializeItems children ++ [closeTok]) := by
  cases vs <;> simp [serializeItem, blockHeadToks]

theorem run_blockHead (δ : DelegateM) (evs : List PEvent) (d sd : Int) (al ai : Nat)
    (pend : List FBXValueM) (name : String) (vs : List SVal)
    (hname : name ≠ "a") (hnp70 : name ≠ "Properties70") (hd : 0 ≤ d) :
    runTokens δ (gBetween false d sd al ai pend) evs (blockHeadToks name vs)
      = (if d ≤ sd then
           (gBetween false (d + 1)
              (if δ.blockReply (evs ++ stepFlush false d sd pend) name (vs.map svalToFBX)
                  = .skip then d else sd) al ai [],
            evs ++ stepFlush false d sd pend
              ++ [.blockEv name (vs.map svalToFBX)
                   (δ.blockReply (evs ++ stepFlush false d sd pend) name (vs.map svalToFBX))])
         else
           (gBetween false (d + 1) sd al ai [], evs ++ stepFlush false d sd pend)) := by
  cases vs with
  | nil =>
    have ht : blockHeadToks name [] = [keyTok name, openTok] := by
      simp [blockHeadToks]
    rw [ht]
    rw [runTokens_cons _ _ _ _ _ (by rfl)]
    rw [step_key δ evs false d sd al ai pend name hname (pendOK_false pend)]
    rw [runTokens_cons _ _ _ _ _ (by rfl)]
    rw [step_open_afterKey δ _ d sd al ai name hd]
    rw [if_neg hnp70]
    by_cases hds : d ≤ sd <;> simp [hds, runTokens]
  | cons v rest =>
    have ht : blockHeadToks name (v :: rest)
        = keyTok name :: svalTok v :: (commaVals rest ++ [openTok]) := by
      simp [blockHeadToks]
    rw [ht]
    rw [runTokens_cons _ _ _ _ _ (by rfl)]
    rw [step_key δ evs false d sd al ai pend name hname (pendOK_false pend)]
    rw [runTokens_cons _ _ _ _ _ (by rfl)]
    rw [step_val_afterKey]
    rw [runTokens_append]
    rw [run_vals δ rest _ false d sd al ai _ (by simp)]
    have hl : ([FBXValueM.str name] ++ [svalToFBX v]) ++ List.map svalToFBX rest
        = FBXValueM.str name :: (svalToFBX v :: List.map svalToFBX rest) := by
      simp
    rw [runTokens_cons _ _ _ _ _ (by rfl)]
    rw [hl]
    rw [step_open_between δ _ d sd al ai name (svalToFBX v :: List.map svalToFBX rest) hd]
    rw [if_neg hnp70]
    by_cases hds : d ≤ sd <;> simp [hds, runTokens]

mutual
/-- Item count of a document, the induction measure for the balanced-parse
    proof. -/
def sizeItem : FItem → Nat
  | .prop _ _ _ => 1
  | .block _ _ children => 1 + sizeItems children
  | .prop70 _ => 1
  | .arrayProp _ _ _ => 1

def sizeItems : List FItem → Nat
  | [] => 0
  | i :: is => sizeItem i + sizeItems is
end

theorem sizeItem_pos (i : FItem) : 1 ≤ sizeItem i := by
  cases i <;> simp [sizeItem]

/-- The balanced-parse invariant, by strong induction on the item count:
    running the serialization of well-formed items from an item boundary
    ends at the same depth and skip floor, produces as many entered blocks
    as end-block calls and no errors, and produces no events at all inside
    a skipped subtree. -/
theorem runItems_balanced_aux (δ : DelegateM) :
    ∀ (n : Nat) (l : List FItem), sizeItems l ≤ n →
      ∀ (evs : List PEvent) (d sd : Int) (al ai : Nat) (pend : List FBXValueM),
      wfItems l = true → 0 ≤ d →
      ((sd = 1000 ∧ d + (heightItems l : Int) ≤ 1000) ∨ sd < d) →
      ∃ E al2 ai2 pend2,
        runTokens δ (gBetween false d sd al ai pend) evs (serializeItems l)
          = (gBetween false d sd al2 ai2 pend2, evs ++ E)
        ∧ E.countP isEnterBlockEv = E.countP isEndBlockEv
        ∧ E.countP isErrorEv = 0
        ∧ (sd < d → E = []) := by
  intro n
  induction n using Nat.strong_induction_on with
  | _ n ih =>
  intro l hsize evs d sd al ai pend hwf hd hreg
  cases l with
  | nil =>
    refine ⟨[], al, ai, pend, ?_, rfl, rfl, fun _ => rfl⟩
    simp [serializeItems, runTokens]
  | cons i is =>
    have hwfp : wfItem i = true ∧ wfItems is = true := by
      simpa [wfItems] using hwf
    obtain ⟨hwf1, hwf2⟩ := hwfp
    have hsz : sizeItems (i :: is) = sizeItem i + sizeItems is := rfl
    have hip : 1 ≤ sizeItem i := sizeItem_pos i
    have hn1 : n - 1 < n := by omega
    have hszis : sizeItems is ≤ n - 1 := by omega
    have hh : heightItems (i :: is) = max (heightItem i) (heightItems is) := rfl
    have hhead : (heightItem i : Int) ≤ (heightItems (i :: is) : Int) := by
      exact_mod_cast (show heightItem i ≤ heightItems (i :: is) by rw [hh]; omega)
    have hregtail : (sd = 1000 ∧ d + (heightItems is : Int) ≤ 1000) ∨ sd < d := by
      rcases hreg with ⟨h1, h2⟩ | h
      · left
        refine ⟨h1, ?_⟩
        have hc : (heightItems is : Int) ≤ (heightItems (i :: is) : Int) := by
          exact_mod_cast (show heightItems is ≤ heightItems (i :: is) by rw [hh]; omega)
        omega
      · right
        exact h
    have hhd : ∃ E1 alA aiA pendA,
        runTokens δ (gBetween false d sd al ai pend) evs (serializeItem i)
          = (gBetween false d sd alA aiA pendA, evs ++ E1)
        ∧ E1.countP isEnterBlockEv = E1.countP isEndBlockEv
        ∧ E1.countP isErrorEv = 0
        ∧ (sd < d → E1 = []) := by
      cases i with
      | prop name v0 vs =>
        have hname : name ≠ "a" := by
          simpa [wfItem] using hwf1
        have hc := stepFlush_counts false d sd pend
        refine ⟨stepFlush false d sd pend, al, ai, _,
          run_prop δ evs false d sd al ai pend name v0 vs hname (pendOK_false pend),
          ?_, hc.2.2, ?_⟩
        · rw [hc.1, hc.2.1]
        · intro hlt
          exact stepFlush_skip false d sd pend (by omega)
      | prop70 ps =>
        have hone : (heightItem (FItem.prop70 ps) : Int) = 1 := rfl
        have hdne : ¬ d = sd := by
          rcases hreg with ⟨h1, h2⟩ | h <;> omega
        have hrun := run_prop70 δ evs d sd al ai pend ps hd (pendOK_false pend)
        rw [if_neg hdne, List.append_assoc, List.append_assoc] at hrun
        have hc1 := stepFlush_counts false d sd pend
        have hc2 := p70FlushChain_counts ps (d + 1) sd []
        have hc3 := stepFlush_counts true (d + 1) sd (ps.foldl (fun _ p => p70PendOf p) [])
        refine ⟨_, al, ai, [], hrun, ?_, ?_, ?_⟩
        · simp [List.countP_append, hc1.1, hc1.2.1, hc2.1, hc2.2.1, hc3.1, hc3.2.1]
        · simp [List.countP_append, hc1.2.2, hc2.2.2, hc3.2.2]
        · intro hlt
          rw [stepFlush_skip false d sd pend (by omega),
              p70FlushChain_skip ps (d + 1) sd [] (by omega),
              stepFlush_skip true (d + 1) sd _ (by omega)]
          rfl
      | arrayProp name n0 ns =>
        have hname : name ≠ "a" := by
          simpa [wfItem] using hwf1
        have hone : (heightItem (FItem.arrayProp name n0 ns) : Int) = 1 := rfl
        have hdne : ¬ d = sd := by
          rcases hreg with ⟨h1, h2⟩ | h <;> omega
        have hrun := run_arrayProp δ evs d sd al ai pend name n0 ns hname hd (pendOK_false pend)
        rw [if_neg hdne, List.append_assoc] at hrun
        have hc1 := stepFlush_counts false d sd pend
        have hc2 := stepFlush_counts false (d + 1) sd [.str name, .arr (arrOf name n0 ns)]
        refine ⟨_, _, _, [], hrun, ?_, ?_, ?_⟩
        · simp [List.countP_append, hc1.1, hc1.2.1, hc2.1, hc2.2.1]
        · simp [List.countP_append, hc1.2.2, hc2.2.2]
        · intro hlt
          rw [stepFlush_skip false d sd pend (by omega),
              stepFlush_skip false (d + 1) sd _ (by omega)]
          rfl
      | block name vs children =>
        have hb : name ≠ "a" ∧ name ≠ "Properties70" ∧ wfItems children = true := by
          simpa [wfItem, and_assoc] using hwf1
        obtain ⟨hname, hnp70, hwfc⟩ := hb
        have hone : (heightItem (FItem.block name vs children) : Int)
            = 1 + (heightItems children : Int) := by
          have h : heightItem (FItem.block name vs children)
              = 1 + heightItems children := rfl
          rw [h]
          push_cast
          ring
        have hszc : sizeItems children ≤ n - 1 := by
          have h1 : sizeItem (FItem.block name vs children) = 1 + sizeItems children := rfl
          omega
        rw [serializeItem_block_split, runTokens_append,
            run_blockHead δ evs d sd al ai pend name vs hname hnp70 hd]
        rcases hreg with ⟨hsd1000, hh2⟩ | hlt
        · have hdle : d ≤ sd := by omega
          have hdc : d + 1 + (heightItems children : Int) ≤ 1000 := by omega
          rw [if_pos hdle]
          by_cases hr : δ.blockReply (evs ++ stepFlush false d sd pend) name
              (vs.map svalToFBX) = .skip
          · rw [if_pos hr, hr]
            obtain ⟨E', alB, aiB, pendB, hrunc, hbalc, herrc, hskc⟩ :=
              ih (n - 1) hn1 children hszc
                (evs ++ stepFlush false d sd pend
                  ++ [PEvent.blockEv name (vs.map svalToFBX) FBXBlockAction.skip])
                (d + 1) d al ai [] hwfc (by omega) (Or.inr (by omega))
            have hE : E' = [] := hskc (by omega)
            subst hE
            rw [runTokens_append, hrunc]
            rw [runTokens_cons _ _ _ _ _ (by rfl)]
            rw [step_close δ _ false (d + 1) d alB aiB pendB (by omega) (pendOK_false _)]
            refine ⟨stepFlush false d sd pend
                ++ [PEvent.blockEv name (vs.map svalToFBX) FBXBlockAction.skip],
              alB, aiB, [], ?_, ?_, ?_, ?_⟩
            · have hf2 := stepFlush_skip false (d + 1) d pendB (by omega)
              have hnl : ¬ (d + 1 ≤ d) := by omega
              simp [hf2, hnl, hsd1000, runTokens]
            · have hc1 := stepFlush_counts false d sd pend
              simp [List.countP_append, hc1.1, hc1.2.1, isEnterBlockEv, isEndBlockEv]
            · have hc1 := stepFlush_counts false d sd pend
              simp [List.countP_append, hc1.2.2, isErrorEv]
            · intro hl
              omega
          · have hre : δ.blockReply (evs ++ stepFlush false d sd pend) name
                (vs.map svalToFBX) = .enter := by
              cases hcase : δ.blockReply (evs ++ stepFlush false d sd pend) name
                  (vs.map svalToFBX) with
              | enter => rfl
              | skip => exact absurd hcase hr
            rw [if_neg hr, hre]
            obtain ⟨E', alB, aiB, pendB, hrunc, hbalc, herrc, _⟩ :=
              ih (n - 1) hn1 children hszc
                (evs ++ stepFlush false d sd pend
                  ++ [PEvent.blockEv name (vs.map svalToFBX) FBXBlockAction.enter])
                (d + 1) sd al ai [] hwfc (by omega) (Or.inl ⟨hsd1000, hdc⟩)
            rw [runTokens_append, hrunc]
            rw [runTokens_cons _ _ _ _ _ (by rfl)]
            rw [step_close δ _ false (d + 1) sd alB aiB pendB (by omega) (pendOK_false _)]
            refine ⟨stepFlush false d sd pend
                ++ [PEvent.blockEv name (vs.map svalToFBX) FBXBlockAction.enter]
                ++ E' ++ (stepFlush false (d + 1) sd pendB ++ [PEvent.endBlockEv]),
              alB, aiB, [], ?_, ?_, ?_, ?_⟩
            · have hne : ¬ (d + 1 - 1 = sd) := by omega
              have hne' : ¬ (d = sd) := by omega
              have hle : d + 1 ≤ sd := by omega
              simp [hne, hne', hle, runTokens]
            · have hc1 := stepFlush_counts false d sd pend
              have hc2 := stepFlush_counts false (d + 1) sd pendB
              simp [List.countP_append, hc1.1, hc1.2.1, hc2.1, hc2.2.1, hbalc,
                    isEnterBlockEv, isEndBlockEv] <;> omega
            · have hc1 := stepFlush_counts false d sd pend
              have hc2 := stepFlush_counts false (d + 1) sd pendB
              simp [List.countP_append, hc1.2.2, hc2.2.2, herrc, isErrorEv]
            · intro hl
              omega
        · have hnle : ¬ (d ≤ sd) := by omega
          rw [if_neg hnle]
          obtain ⟨E', alB, aiB, pendB, hrunc, _, _, hskc⟩ :=
            ih (n - 1) hn1 children hszc (evs ++ stepFlush false d sd pend)
              (d + 1) sd al ai [] hwfc (by omega) (Or.inr (by omega))
          have hE : E' = [] := hskc (by omega)
          subst hE
          rw [runTokens_append, hrunc]
          rw [runTokens_cons _ _ _ _ _ (by rfl)]
          rw [step_close δ _ false (d + 1) sd alB aiB pendB (by omega) (pendOK_false _)]
          refine ⟨[], alB, aiB, [], ?_, rfl, rfl, fun _ => rfl⟩
          have hne : ¬ (d + 1 - 1 = sd) := by omega
          have hne' : ¬ (d = sd) := by omega
          have hnl2 : ¬ (d + 1 ≤ sd) := by omega
          have hf1 := stepFlush_skip false d sd pend hnle
          have hf2 := stepFlush_skip false (d + 1) sd pendB (by omega)
          simp [hne, hne', hnl2, hf1, hf2, runTokens]
    obtain ⟨E1, alA, aiA, pendA, hrun1, hbal1, herr1, hsk1⟩ := hhd
    obtain ⟨E2, al2, ai2, pend2, hrun2, hbal2, herr2, hsk2⟩ :=
      ih (n - 1) hn1 is hszis (evs ++ E1) d sd alA aiA pendA hwf2 hd hregtail
    refine ⟨E1 ++ E2, al2, ai2, pend2, ?_, ?_, ?_, ?_⟩
    · have hser : serializeItems (i :: is) = serializeItem i ++ serializeItems is := rfl
      rw [hser, runTokens_append, hrun1, hrun2, List.append_assoc]
    · simp [List.countP_append, hbal1, hbal2]
    · simp [List.countP_append, herr1, herr2]
    · intro hl
      rw [hsk1 hl, hsk2 hl]
      rfl

/-! ### Claim theorems about the parser -/

theorem step_eof (δ : DelegateM) (evs : List PEvent) (s : PState) :
    stepToken δ evs s eofTok = ({ s with eof := true }, []) := rfl

/-- The delegate call a flushed `P` record produces. -/
def p70EvOf (p : P70) : PEvent :=
  .typedPropertyEv p.pname (fbxTypeNameMapping (jsToLower p.typeName)) p.typeName
    (p.vals.map svalToFBX)

theorem stepFlush_p70PendOf (d sd : Int) (p : P70) (h : d ≤ sd) :
    stepFlush true d sd (p70PendOf p) = [p70EvOf p] := by
  unfold stepFlush p70PendOf p70EvOf interpretProp70P
  simp [h, valAsStr]

theorem p70FlushChain_map_aux (d sd : Int) (h : d ≤ sd) :
    ∀ (ps : List P70) (q : P70),
      p70FlushChain d sd (p70PendOf q) ps
          ++ stepFlush true d sd (ps.foldl (fun _ p => p70PendOf p) (p70PendOf q))
        = p70EvOf q :: ps.map p70EvOf := by
  intro ps
  induction ps with
  | nil =>
    intro q
    simp [p70FlushChain, stepFlush_p70PendOf d sd q h]
  | cons p rest ih =>
    intro q
    have h1 : p70FlushChain d sd (p70PendOf q) (p :: rest)
        = stepFlush true d sd (p70PendOf q) ++ p70FlushChain d sd (p70PendOf p) rest := rfl
    have h2 : (p :: rest).foldl (fun _ p => p70PendOf p) (p70PendOf q)
        = rest.foldl (fun _ p => p70PendOf p) (p70PendOf p) := by
      simp
    rw [h1, stepFlush_p70PendOf d sd q h, h2, List.append_assoc, ih p]
    rfl

theorem p70FlushChain_map (d sd : Int) (h : d ≤ sd) (ps : List P70) :
    p70FlushChain d sd [] ps
        ++ stepFlush true d sd (ps.foldl (fun _ p => p70PendOf p) [])
      = ps.map p70EvOf := by
  cases ps with
  | nil => rfl
  | cons p rest =>
    have h1 : p70FlushChain d sd [] (p :: rest)
        = stepFlush true d sd [] ++ p70FlushChain d sd (p70PendOf p) rest := rfl
    have hsf : stepFlush true d sd ([] : List FBXValueM) = [] := rfl
    have h2 : (p :: rest).foldl (fun _ p => p70PendOf p) ([] : List FBXValueM)
        = rest.foldl (fun _ p => p70PendOf p) (p70PendOf p) := by
      simp
    rw [h1, hsf, h2]
    simp [p70FlushChain_map_aux d sd h rest p]

theorem run_arrayProp_trace (δ : DelegateM) (evs : List PEvent) (d : Int) (al ai : Nat)
    (name : String) (n0 : Rat) (ns : List Rat) (hd : 0 ≤ d) (hlt : d ≤ 999)
    (hname : name ≠ "a") :
    runTokens δ (gBetween false d 1000 al ai []) evs (serializeItem (.arrayProp name n0 ns))
      = (gBetween false d 1000 (1 + ns.length) (1 + ns.length) [],
         evs ++ [.propertyEv name [.arr (arrOf name n0 ns)]]) := by
  have hdne : ¬ d = (1000 : Int) := by omega
  have h := run_arrayProp δ evs d 1000 al ai [] name n0 ns hname hd (pendOK_false _)
  rw [if_neg hdne] at h
  have hsf : stepFlush false d 1000 ([] : List FBXValueM) = [] := rfl
  rw [hsf, List.append_nil] at h
  have hsf2 : stepFlush false (d + 1) 1000 [.str name, .arr (arrOf name n0 ns)]
      = [.propertyEv name [.arr (arrOf name n0 ns)]] := by
    unfold stepFlush
    simp [valHead, show d + 1 ≤ (1000 : Int) by omega]
  rw [hsf2] at h
  exact h

/-- **C6**: a `Properties70` block and an `a:` array-wrapper pseudo-block
    never cause delegate `block()`/`endBlock()` calls: the full event trace
    of a `Properties70` block is exactly one `typedProperty()` call per `P`
    record, whose payload is the record's values from index 4 onward, and
    the trace of an `a:` array wrapper is exactly one `property()` call
    carrying the committed array. -/
theorem properties70Opacity (δ : DelegateM) (evs : List PEvent) (d : Int) (al ai : Nat)
    (hd : 0 ≤ d) (hlt : d ≤ 999) :
    (∀ ps : List P70,
        runTokens δ (gBetween false d 1000 al ai []) evs (serializeItem (.prop70 ps))
          = (gBetween false d 1000 al ai [], evs ++ ps.map p70EvOf))
    ∧ (∀ (name : String) (n0 : Rat) (ns : List Rat), name ≠ "a" →
        runTokens δ (gBetween false d 1000 al ai []) evs (serializeItem (.arrayProp name n0 ns))
          = (gBetween false d 1000 (1 + ns.length) (1 + ns.length) [],
             evs ++ [.propertyEv name [.arr (arrOf name n0 ns)]])) := by
  constructor
  · intro ps
    have hdne : ¬ d = (1000 : Int) := by omega
    have h := run_prop70 δ evs d 1000 al ai [] ps hd (pendOK_false _)
    rw [if_neg hdne] at h
    have hsf : stepFlush false d 1000 ([] : List FBXValueM) = [] := rfl
    rw [hsf, List.append_nil] at h
    rw [h, List.append_assoc, p70FlushChain_map (d + 1) 1000 (by omega) ps]
  · intro name n0 ns hname
    exact run_arrayProp_trace δ evs d al ai name n0 ns hd hlt hname

/-- **C6** witness: a one-record `Properties70` block at depth 0 produces
    exactly one `typedProperty()` call with the values from index 4 on. -/
theorem properties70Opacity_witness :
    (0 : Int) ≤ 0 ∧ (0 : Int) ≤ 999
    ∧ runTokens enterDelegate (gBetween false 0 1000 0 0 []) []
        (serializeItem (.prop70 [⟨"MyProp", "int", "", "", [.num 7]⟩]))
      = (gBetween false 0 1000 0 0 [],
         [.typedPropertyEv "MyProp" .int "int" [.num 7]]) := by
  refine ⟨by decide, by decide, ?_⟩
  have h := (properties70Opacity enterDelegate [] 0 0 0 (by decide) (by decide)).1
    [⟨"MyProp", "int", "", "", [.num 7]⟩]
  have he : p70EvOf ⟨"MyProp", "int", "", "", [.num 7]⟩
      = .typedPropertyEv "MyProp" .int "int" [.num 7] := by decide
  simpa [he] using h

/-- **C5** (amended): for a delegate-independent well-formed document —
    serialized from an AST whose block names avoid the reserved words `a`
    and `Properties70`, whose `Properties70` blocks contain only `P`
    records, and whose nesting height stays at or below the skip sentinel
    1000 — the parse reaches EndOfInput with no errors, at depth 0, and
    the number of entered `block()` calls equals the number of
    `endBlock()` calls for every delegate. -/
theorem parseDepthBalanced (δ : DelegateM) (doc : List FItem)
    (hwf : wfItems doc = true) (hh : heightItems doc ≤ 1000) :
    ∃ (E : List PEvent) (s : PState),
      runTokens δ initPState [] (serializeItems doc ++ [eofTok]) = (s, E)
      ∧ s.depth = 0
      ∧ s.eof = true
      ∧ E.countP isEnterBlockEv = E.countP isEndBlockEv
      ∧ E.countP isErrorEv = 0 := by
  obtain ⟨E, al2, ai2, pend2, hrun, hbal, herr, _⟩ :=
    runItems_balanced_aux δ (sizeItems doc) doc le_rfl [] 0 1000 0 0 [] hwf (by omega)
      (Or.inl ⟨rfl, by omega⟩)
  refine ⟨E, { gBetween false 0 1000 al2 ai2 pend2 with eof := true },
    ?_, rfl, rfl, hbal, herr⟩
  rw [initPState_eq, runTokens_append, hrun]
  rw [runTokens_cons _ _ _ _ _ (by rfl)]
  rw [step_eof]
  simp [runTokens]

/-- **C5** witness: a document with one entered block and one property. -/
theorem parseDepthBalanced_witness :
    wfItems [FItem.block "Objects" [] [FItem.prop "Name" (SVal.str "x") []]] = true
    ∧ heightItems [FItem.block "Objects" [] [FItem.prop "Name" (SVal.str "x") []]] ≤ 1000
    ∧ ∃ (E : List PEvent) (s : PState),
        runTokens enterDelegate initPState []
          (serializeItems [FItem.block "Objects" [] [FItem.prop "Name" (SVal.str "x") []]]
            ++ [eofTok]) = (s, E)
        ∧ s.depth = 0
        ∧ s.eof = true
        ∧ E.countP isEnterBlockEv = E.countP isEndBlockEv
        ∧ E.countP isErrorEv = 0 :=
  ⟨by decide, by decide,
   parseDepthBalanced enterDelegate
     [FItem.block "Objects" [] [FItem.prop "Name" (SVal.str "x") []]]
     (by decide) (by decide)⟩

/-- **C5** counterexample to the unamended claim: a syntactically balanced
    document consisting of a `Properties70` block that contains another
    `Properties70` block parses without any error and returns to depth 0,
    yet the delegate observes zero `block()` calls and one `endBlock()`
    call, so block/endBlock pairing does not match the non-skipped
    open/close token pairing (2 pairs, none skipped). -/
theorem parseDepthBalanced_cex :
    (runTokens enterDelegate initPState []
        [keyTok "Properties70", openTok, keyTok "Properties70", openTok,
         closeTok, closeTok, eofTok]).2.countP isEnterBlockEv = 0
    ∧ (runTokens enterDelegate initPState []
        [keyTok "Properties70", openTok, keyTok "Properties70", openTok,
         closeTok, closeTok, eofTok]).2.countP
          (fun e => !(isEnterBlockEv e) && !(isEndBlockEv e) && !(isErrorEv e)) = 0
    ∧ (runTokens enterDelegate initPState []
        [keyTok "Properties70", openTok, keyTok "Properties70", openTok,
         closeTok, closeTok, eofTok]).2.countP isEndBlockEv = 1
    ∧ (runTokens enterDelegate initPState []
        [keyTok "Properties70", openTok, keyTok "Properties70", openTok,
         closeTok, closeTok, eofTok]).2.countP isErrorEv = 0
    ∧ (runTokens enterDelegate initPState []
        [keyTok "Properties70", openTok, keyTok "Properties70", openTok,
         closeTok, closeTok, eofTok]).1.depth = 0
    ∧ (runTokens enterDelegate initPState []
        [keyTok "Properties70", openTok, keyTok "Properties70", openTok,
         closeTok, closeTok, eofTok]).1.eof = true := by
  decide

/-- **C7**: the element type of the array committed for an announced
    array depends only on the preceding field name through the fixed
    lookup table — `Vertices` gives 64-bit floats, `PolygonVertexIndex`
    gives 32-bit signed ints, any name outside the table gives 64-bit
    floats — and the numeric tokens `1` and `1.0` tokenize to the same
    number, so the textual form of the literals cannot influence it. -/
theorem arrayTypingByKey :
    (∀ n : Nat, (arrayForKey "Vertices" n).elem = .f64)
    ∧ (∀ n : Nat, (arrayForKey "PolygonVertexIndex" n).elem = .i32)
    ∧ (∀ (key : String) (n : Nat),
        key ∉ ["PolygonVertexIndex", "UVIndex", "Edges", "Materials", "KeyAttrFlags",
               "KeyAttrRefCount", "KeyValueFloat", "KeyAttrDataFloat"] →
        (arrayForKey key n).elem = .f64)
    ∧ (∀ (δ : DelegateM) (evs : List PEvent) (d : Int) (al ai : Nat)
        (name : String) (n0 : Rat) (ns : List Rat),
        0 ≤ d → d ≤ 999 → name ≠ "a" →
        (arrOf name n0 ns).elem = (arrayForKey name (1 + ns.length)).elem
        ∧ runTokens δ (gBetween false d 1000 al ai []) evs
              (serializeItem (.arrayProp name n0 ns))
            = (gBetween false d 1000 (1 + ns.length) (1 + ns.length) [],
               evs ++ [.propertyEv name [.arr (arrOf name n0 ns)]]))
    ∧ ((nextToken (initTokState "1".toList)).2.type = .numberT
       ∧ (nextToken (initTokState "1.0".toList)).2.type = .numberT
       ∧ tokValRat (nextToken (initTokState "1".toList)).2 = 1
       ∧ tokValRat (nextToken (initTokState "1.0".toList)).2 = 1) := by
  refine ⟨fun n => rfl, fun n => rfl, ?_, ?_, by decide, by decide, by decide, by decide⟩
  · intro key n hk
    simp only [List.mem_cons, List.not_mem_nil, or_false, not_or] at hk
    obtain ⟨h1, h2, h3, h4, h5, h6, h7, h8⟩ := hk
    unfold arrayForKey
    simp [h1, h2, h3, h4, h5, h6, h7, h8]
  · intro δ evs d al ai name n0 ns hd hlt hname
    exact ⟨rfl, run_arrayProp_trace δ evs d al ai name n0 ns hd hlt hname⟩

/-- **C7** witness: the `Vertices` array written with the literals `1` and
    `2.0` is committed as a 64-bit float array. -/
theorem arrayTypingByKey_witness :
    (0 : Int) ≤ 0 ∧ (0 : Int) ≤ 999 ∧ "Vertices" ≠ "a"
    ∧ (arrOf "Vertices" 1 [2]).elem = .f64
    ∧ runTokens enterDelegate (gBetween false 0 1000 0 0 []) []
          (serializeItem (.arrayProp "Vertices" 1 [2]))
        = (gBetween false 0 1000 2 2 [],
           [.propertyEv "Vertices" [.arr (arrOf "Vertices" 1 [2])]]) := by
  have h := (arrayTypingByKey.2.2.2.1 enterDelegate [] 0 0 0 "Vertices" 1 [2]
    (by decide) (by decide) (by decide))
  exact ⟨by decide, by decide, by decide, h.1, by simpa using h.2⟩

/-! ## Document graph builder (FBX7DocumentParser, asset-fbx.ts lines 624-790)
    and document graph (FBXDocumentGraph, lines 170-620) -/

/-- `BuilderState` (lines 624-630). In the compiled JS these are the
    numbers 0-4; `Object` is 3, which is truthy. -/
inductive BuilderState where
  | root
  | globalSettings
  | objects
  | object
  | connections
deriving DecidableEq, Repr

/-- A graph `Node` as far as `endBlock` observes it. -/
structure GNode where
  name : String
  values : List FBXValueM
deriving DecidableEq, Repr

/-- The `FBX7DocumentParser` fields `endBlock` touches. `parentChain`
    models `curNodeParent` followed by its `.parent` chain (head is
    `curNodeParent`, `[]` is `null`). -/
structure BuilderM where
  state : BuilderState
  depth : Int
  curObject : Option GNode
  parentChain : List GNode
deriving DecidableEq, Repr

/-- Outcome of one `endBlock()` call: the new builder state together with
    the `addObject` calls it issued, a thrown `TypeError` (a JS null
    dereference), or a failed `assert`. -/
inductive EndBlockResult where
  | ok (b : BuilderM) (addObjectCalls : List GNode)
  | typeError (msg : String)
  | assertFail (msg : String)
deriving DecidableEq, Repr

/-- `FBX7DocumentParser.endBlock` (lines 693-711), faithfully including
    the `if (this.state = BuilderState.Object)` ASSIGNMENT: its value
    `BuilderState.Object` (3) is truthy, so at decremented depth 1 the
    finalize branch is always taken, whatever the state was; with
    `curObject` null the `addObject` call then dereferences null
    (`node.values[0]`). -/
def endBlockM (b : BuilderM) : EndBlockResult :=
  let d := b.depth - 1
  if d = 1 then
    match b.curObject with
    | none => .typeError "addObject: node is null"
    | some o =>
      .ok { state := .objects, depth := d, curObject := none, parentChain := [] } [o]
  else if d = 0 then
    .ok { b with depth := d, state := .root } []
  else
    match b.parentChain with
    | [] => .ok { b with depth := d } []
    | _ :: rest =>
      match rest with
      | [] => .assertFail "curNodeParent is null"
      | _ => .ok { b with depth := d, parentChain := rest } []

/-- The claim sentence for comparison with `endBlockM`: at decremented
    depth 1 finalize via `addObject` if and only if the state is
    `Object` (in any other state no object is finalized and the builder
    only records the new depth); other depths as in the source. -/
def endBlockClaim (b : BuilderM) : EndBlockResult :=
  let d := b.depth - 1
  if d = 1 then
    if b.state = .object then
      match b.curObject with
      | none => .typeError "addObject: node is null"
      | some o =>
        .ok { state := .objects, depth := d, curObject := none, parentChain := [] } [o]
    else
      .ok { b with depth := d } []
  else if d = 0 then
    .ok { b with depth := d, state := .root } []
  else
    match b.parentChain with
    | [] => .ok { b with depth := d } []
    | _ :: rest =>
      match rest with
      | [] => .assertFail "curNodeParent is null"
      | _ => .ok { b with depth := d, parentChain := rest } []

/-- **C2**: the `=`-for-`==` bug in `endBlock`. At decremented depth 1
    the source takes the finalize branch in every builder state: with a
    pending object it always calls `addObject` and moves to Objects
    state, and with no pending object (e.g. closing a nested block inside
    a `Connections` block) the `addObject` call throws a `TypeError`,
    whereas the claimed behavior is to finalize only in Object state and
    never to fail. -/
theorem endBlock_assignment_bug :
    (∀ (b : BuilderM) (o : GNode), b.depth = 2 → b.curObject = some o →
        endBlockM b
          = .ok { state := .objects, depth := 1, curObject := none, parentChain := [] } [o])
    ∧ endBlockM ⟨.connections, 2, none, []⟩ = .typeError "addObject: node is null"
    ∧ endBlockClaim ⟨.connections, 2, none, []⟩ = .ok ⟨.connections, 1, none, []⟩ []
    ∧ endBlockM ⟨.connections, 2, none, []⟩ ≠ endBlockClaim ⟨.connections, 2, none, []⟩ := by
  refine ⟨?_, by decide, by decide, by decide⟩
  intro b o hd ho
  unfold endBlockM
  rw [ho]
  simp [hd]

/-- **C2** witness: a builder in `Connections` state at depth 2 with a
    stale pending object still finalizes it. -/
theorem endBlock_assignment_bug_witness :
    (2 : Int) = 2 ∧ (some (GNode.mk "M" []) = some (GNode.mk "M" []))
    ∧ endBlockM ⟨.connections, 2, some (GNode.mk "M" []), []⟩
        = .ok { state := .objects, depth := 1, curObject := none, parentChain := [] }
            [GNode.mk "M" []] :=
  ⟨rfl, rfl,
   endBlock_assignment_bug.1 ⟨.connections, 2, some (GNode.mk "M" []), []⟩
     (GNode.mk "M" []) rfl rfl⟩

/-- A `Connection` record as stored in the graph (`fromNode`/`toNode`
    back-references are resolved at insertion and always non-null for
    stored connections, so only the ids are kept). -/
structure ConnG where
  fromID : Int
  toID : Int
  propName : Option String
deriving DecidableEq, Repr

/-- The document graph as `addConnection` observes it: the key set of
    `allObjects` plus the connection list and the per-node
    `connectionsIn`/`connectionsOut` push logs (pairs of node id and
    connection). -/
structure GraphG where
  allObjectIDs : List Int
  connections : List ConnG
  inLog : List (Int × ConnG)
  outLog : List (Int × ConnG)
deriving DecidableEq, Repr

/-- `FBXDocumentGraph.addConnection` (lines 237-246): resolve both
    endpoint ids in `allObjects`; only if both are present push the
    connection onto the source node's `connectionsOut`, the target
    node's `connectionsIn` and the graph's `connections`. -/
def addConnection (g : GraphG) (c : ConnG) : GraphG :=
  if g.allObjectIDs.contains c.fromID && g.allObjectIDs.contains c.toID then
    { g with connections := g.connections ++ [c],
             outLog := g.outLog ++ [(c.fromID, c)],
             inLog := g.inLog ++ [(c.toID, c)] }
  else g

/-- **C8**: a connection whose `fromID` or `toID` is not a key of the
    all-objects map leaves the document graph completely unchanged — it
    appears in neither the connections list nor any `connectionsIn`/
    `connectionsOut` log — and therefore every later graph consumer
    (resolution included) behaves exactly as on the graph without the
    call. -/
theorem addConnection_drops_unknown (g : GraphG) (c : ConnG)
    (h : ¬ (g.allObjectIDs.contains c.fromID = true
            ∧ g.allObjectIDs.contains c.toID = true)) :
    addConnection g c = g
    ∧ (addConnection g c).connections = g.connections
    ∧ (addConnection g c).inLog = g.inLog
    ∧ (addConnection g c).outLog = g.outLog
    ∧ ∀ (α : Type) (resolvePass : GraphG → α), resolvePass (addConnection g c) = resolvePass g := by
  have he : addConnection g c = g := by
    unfold addConnection
    have hb : (g.allObjectIDs.contains c.fromID && g.allObjectIDs.contains c.toID) = false := by
      cases h1 : g.allObjectIDs.contains c.fromID <;>
        cases h2 : g.allObjectIDs.contains c.toID <;>
          simp_all
    rw [hb]
    simp
  exact ⟨he, by rw [he], by rw [he], by rw [he], fun α f => by rw [he]⟩

/-- **C8** witness: a connection from the unknown id 5 to the root id 0
    is dropped from the fresh graph. -/
theorem addConnection_drops_unknown_witness :
    ¬ ((GraphG.mk [0] [] [] []).allObjectIDs.contains (ConnG.mk 5 0 none).fromID = true
       ∧ (GraphG.mk [0] [] [] []).allObjectIDs.contains (ConnG.mk 5 0 none).toID = true)
    ∧ addConnection (GraphG.mk [0] [] [] []) (ConnG.mk 5 0 none) = GraphG.mk [0] [] [] [] :=
  ⟨by decide,
   (addConnection_drops_unknown (GraphG.mk [0] [] [] []) (ConnG.mk 5 0 none) (by decide)).1⟩

/-! ## Texture loading and resolve (FBXDocumentGraph.loadTextures lines
    249-333, resolve lines 605-619) -/

/-- The `Texture2D` record `loadTextures` assembles per Video node
    (name/userRef/mip flag/path from the node's children; `descriptorSet`
    records whether an image was decoded into `descriptor`). -/
structure TextureM where
  name : String
  userRef : Int
  useMipMaps : Bool
  filePath : Option String
  descriptorSet : Bool
deriving DecidableEq, Repr

/-- A Video-class node as `loadTextures` consumes it: the relevant
    children (`UseMipMap`, `RelativeFilename`, `Content`) plus an oracle
    for the two external effects — whether `mimeTypeForFilePath` finds a
    mime type and whether the image decode/load succeeds. -/
structure VideoM where
  id : Int
  objName : String
  useMipMapChild : Option Rat
  relativeFilename : Option String
  hasContent : Bool
  mimeFound : Bool
  imageLoads : Bool
deriving DecidableEq, Repr, Inhabited

/-- The texture record for a video node (lines 255-273). -/
def texOf (v : VideoM) (loaded : Bool) : TextureM :=
  { name := v.objName
    userRef := v.id
    useMipMaps := match v.useMipMapChild with
      | some q => decide (q ≠ 0)
      | none => false
    filePath := v.relativeFilename
    descriptorSet := loaded }

/-- The settlement of one per-video texture promise (lines 279-323):
    embedded content without a mime type, a failed embedded decode, and a
    failed external load all resolve to a null placeholder when
    `allowMissingTextures` is set and reject otherwise. -/
def textureOutcome (allow : Bool) (v : VideoM) : Except String (Option TextureM) :=
  if v.hasContent then
    if v.mimeFound = false then
      if allow then .ok none else .error "no mime-type found for file path"
    else if v.imageLoads then .ok (some (texOf v true))
    else if allow then .ok none else .error "image decode failed"
  else
    if v.imageLoads then .ok (some (texOf v true))
    else if allow then .ok none else .error "image load failed"

/-- `Promise.all`: fulfills with all values, or rejects with the first
    rejection (completion order is a race; list order is used here). -/
def settleAll : List (Except String (Option TextureM)) → Except String (List (Option TextureM))
  | [] => .ok []
  | .error e :: _ => .error e
  | .ok t :: rest =>
    match settleAll rest with
    | .ok ts => .ok (t :: ts)
    | .error e => .error e

/-- Modelled from the spec: an `AssetGroup` exposes an ordered `textures`
    collection and `addTexture` appends the given slot as-is, null
    placeholders included, so positional lookups still see a slot. -/
structure AssetGroupM where
  textures : List (Option TextureM)
deriving DecidableEq, Repr

/-- `loadTextures` (lines 249-333): settle all per-video promises, then
    `.then((textures) => ...group..., () => null)` — the second callback
    turns EVERY rejection of `Promise.all` into FULFILLMENT with `null`,
    so the returned promise never rejects; `none` is that null group. -/
def loadTexturesM (allow : Bool) (videos : List VideoM) : Option AssetGroupM :=
  match settleAll (videos.map (textureOutcome allow)) with
  | .ok texs => some ⟨texs⟩
  | .error _ => none

/-- `resolve` (lines 605-619) on a graph whose only objects are Video
    nodes: the chained callback runs the three build passes, which
    iterate over the graph's (empty) material/geometry/model sets and
    never touch the group, and returns the group; `.error` would be a
    rejection of the returned promise. -/
def resolveVideosOnly (allow : Bool) (videos : List VideoM) :
    Except String (Option AssetGroupM) :=
  .ok (loadTexturesM allow videos)

/-- A video whose texture cannot be produced: embedded content without a
    recognized mime type, or image decode/load failure. -/
def failsToProduce (v : VideoM) : Bool :=
  (v.hasContent && !v.mimeFound) || !v.imageLoads

theorem textureOutcome_true (v : VideoM) :
    textureOutcome true v
      = .ok (if failsToProduce v then none else some (texOf v true)) := by
  obtain ⟨i, o, um, rf, hc, mf, il⟩ := v
  cases hc <;> cases mf <;> cases il <;> rfl

theorem textureOutcome_false_fails (v : VideoM) (h : failsToProduce v = true) :
    ∃ e, textureOutcome false v = .error e := by
  obtain ⟨i, o, um, rf, hc, mf, il⟩ := v
  cases hc <;> cases mf <;> cases il <;>
    first
      | exact ⟨"no mime-type found for file path", rfl⟩
      | exact ⟨"image decode failed", rfl⟩
      | exact ⟨"image load failed", rfl⟩
      | simp [failsToProduce] at h

theorem settleAll_allow :
    ∀ videos : List VideoM,
      settleAll (videos.map (textureOutcome true))
        = .ok (videos.map (fun v => if failsToProduce v then none else some (texOf v true))) := by
  intro videos
  induction videos with
  | nil => rfl
  | cons v rest ih =>
    simp only [List.map_cons, textureOutcome_true v]
    unfold settleAll
    rw [ih]

theorem settleAll_has_error :
    ∀ (l : List (Except String (Option TextureM))),
      (∃ x ∈ l, ∃ e, x = Except.error e) → ∃ e, settleAll l = .error e := by
  intro l
  induction l with
  | nil =>
    rintro ⟨x, hx, _⟩
    cases hx
  | cons x rest ih =>
    rintro ⟨y, hy, e, he⟩
    rcases List.mem_cons.mp hy with h | h
    · subst h
      subst he
      exact ⟨e, rfl⟩
    · cases x with
      | error e2 => exact ⟨e2, rfl⟩
      | ok t =>
        obtain ⟨e3, he3⟩ := ih ⟨y, h, e, he⟩
        refine ⟨e3, ?_⟩
        unfold settleAll
        rw [he3]

/-- **C3** (amended): for a graph of Video nodes containing one whose
    texture cannot be produced, `resolve()` with `allowMissingTextures`
    fulfills with a group whose textures collection has a null entry at
    that video's position; with the option off, `resolve()` does NOT
    reject — the `() => null` rejection handler in `loadTextures` turns
    the rejection into fulfillment, so `resolve()` fulfills with a null
    group. -/
theorem resolveMissingTexturePolicy :
    (∀ (videos : List VideoM) (k : Nat), k < videos.length →
        failsToProduce videos[k]! = true →
        ∃ g : AssetGroupM, resolveVideosOnly true videos = .ok (some g)
          ∧ g.textures.length = videos.length
          ∧ g.textures[k]? = some none)
    ∧ (∀ (videos : List VideoM) (v : VideoM), v ∈ videos → failsToProduce v = true →
        resolveVideosOnly false videos = .ok none) := by
  constructor
  · intro videos k hk hfail
    refine ⟨⟨videos.map (fun v => if failsToProduce v then none else some (texOf v true))⟩,
      ?_, by simp, ?_⟩
    · unfold resolveVideosOnly loadTexturesM
      rw [settleAll_allow videos]
    · rw [List.getElem?_map, List.getElem?_eq_getElem hk]
      have hv : videos[k]! = videos[k] := getElem!_pos videos k hk
      rw [hv] at hfail
      simp [hfail]
  · intro videos v hv hfail
    obtain ⟨e, he⟩ := textureOutcome_false_fails v hfail
    obtain ⟨e2, he2⟩ := settleAll_has_error (videos.map (textureOutcome false))
      ⟨textureOutcome false v, List.mem_map_of_mem _ hv, e, he⟩
    unfold resolveVideosOnly loadTexturesM
    rw [he2]

/-- **C3** witness: one failing embedded video; with the option on the
    group has the null slot, with it off the resolve fulfills with null. -/
theorem resolveMissingTexturePolicy_witness :
    (0 < [VideoM.mk 4 "clip" none (some "t.png") true false true].length)
    ∧ failsToProduce (VideoM.mk 4 "clip" none (some "t.png") true false true) = true
    ∧ (∃ g : AssetGroupM,
        resolveVideosOnly true [VideoM.mk 4 "clip" none (some "t.png") true false true]
          = .ok (some g)
        ∧ g.textures.length = [VideoM.mk 4 "clip" none (some "t.png") true false true].length
        ∧ g.textures[0]? = some none) :=
  ⟨by decide, by decide,
   resolveMissingTexturePolicy.1 [VideoM.mk 4 "clip" none (some "t.png") true false true]
     0 (by decide) (by decide)⟩

/-- **C3** counterexample to the unamended claim: with
    `allowMissingTextures = false` and a Video node whose embedded
    content has no recognized mime type, `resolve()` fulfills (with a
    null group) instead of rejecting. -/
theorem resolveMissingTexturePolicy_cex :
    resolveVideosOnly false [VideoM.mk 4 "clip" none (some "t.png") true false true]
      = .ok none
    ∧ ¬ ∃ e, resolveVideosOnly false [VideoM.mk 4 "clip" none (some "t.png") true false true]
        = .error e := by
  refine ⟨rfl, ?_⟩
  rintro ⟨e, he⟩
  rw [show resolveVideosOnly false [VideoM.mk 4 "clip" none (some "t.png") true false true]
      = .ok none from rfl] at he
  exact absurd he (by simp)

/-! ## Material building (FBXDocumentGraph.buildMaterials, lines 336-386) -/

/-- A graph node as `buildMaterials` consumes it: id, `objectName()`,
    children as (name, numeric values) pairs (the source casts the
    consulted children's values to `number[]`/`number`), and the resolved
    `connectionsIn` list as (fromID, fromNode) pairs (`addConnection`
    only stores connections with both endpoints resolved). -/
inductive CNode where
  | mk (id : Int) (objName : String) (children : List (String × List Rat))
      (connectionsIn : List (Int × CNode))

def CNode.id : CNode → Int
  | .mk i _ _ _ => i

def CNode.objName : CNode → String
  | .mk _ o _ _ => o

def CNode.children : CNode → List (String × List Rat)
  | .mk _ _ ch _ => ch

def CNode.connectionsIn : CNode → List (Int × CNode)
  | .mk _ _ _ cs => cs

/-- Modelled from the spec: a material asset with the fields
    `buildMaterials` writes; `makeMaterial()` supplies neutral defaults
    which the pass then overwrites from named children. -/
structure MaterialM where
  name : String
  userRef : Int
  diffuseColour : List Rat
  specularColour : List Rat
  specularIntensity : Rat
  specularExponent : Rat
  diffuseTexture : Option TextureM
  textureOffset : List Rat
  textureScale : List Rat
deriving DecidableEq, Repr

/-- Modelled from the spec: `makeMaterial()` defaults (only fields the
    claim consults are relevant; `diffuseTexture` starts unset). -/
def makeMaterial : MaterialM :=
  ⟨"", 0, [0, 0, 0], [0, 0, 0], 0, 0, none, [0, 0], [1, 1]⟩

/-- The material-children walk (lines 343-356); `vec3.copy` copies three
    components, the scalar reads take `values[0]`. -/
def applyMatChild (m : MaterialM) (c : String × List Rat) : MaterialM :=
  if c.1 = "DiffuseColor" then { m with diffuseColour := c.2.take 3 }
  else if c.1 = "SpecularColor" then { m with specularColour := c.2.take 3 }
  else if c.1 = "SpecularFactor" then { m with specularIntensity := c.2.headD 0 }
  else if c.1 = "ShininessExponent" then { m with specularExponent := c.2.headD 0 }
  else m

/-- The texture-node children walk (lines 373-380); `vec2.copy` copies
    two components. -/
def applyTexChild (m : MaterialM) (c : String × List Rat) : MaterialM :=
  if c.1 = "ModelUVTranslation" then { m with textureOffset := c.2.take 2 }
  else if c.1 = "ModelUVScaling" then { m with textureScale := c.2.take 2 }
  else m

/-- `group.textures.find((t) => t && t.userRef == videoNodeID)` (line 365). -/
def findTex2D (textures : List (Option TextureM)) (videoNodeID : Int) : Option TextureM :=
  match textures.find? (fun t =>
    match t with
    | some tt => decide (tt.userRef = videoNodeID)
    | none => false) with
  | some (some tt) => some tt
  | _ => none

/-- The texture-linkage tail of one `buildMaterials` iteration (lines
    358-382): `texNode.connectionsIn[0].fromID` (line 364) is evaluated
    BEFORE the `!(texNode && tex2D)` guard, so a texture node without
    incoming connections throws a `TypeError` (reading `fromID` of
    `undefined`); a missing texture match is only the warning branch,
    which leaves the diffuse texture unset. -/
def texLinkStep (textures : List (Option TextureM)) (mat1 : MaterialM) (texNode : CNode) :
    Except String MaterialM :=
  match texNode.connectionsIn with
  | [] => .error "TypeError: cannot read fromID of undefined"
  | (videoNodeID, _) :: _ =>
    match findTex2D textures videoNodeID with
    | none => .ok mat1
    | some t =>
      .ok (texNode.children.foldl applyTexChild { mat1 with diffuseTexture := some t })

/-- One iteration of the `buildMaterials` loop (lines 337-385): defaults,
    the children walk, then — only if an incoming connection exists — the
    texture linkage through the FIRST incoming connection. -/
def buildOneMaterial (textures : List (Option TextureM)) (fbxMat : CNode) :
    Except String MaterialM :=
  let mat0 := { makeMaterial with name := fbxMat.objName, userRef := fbxMat.id }
  let mat1 := fbxMat.children.foldl applyMatChild mat0
  match fbxMat.connectionsIn with
  | [] => .ok mat1
  | (_, texNode) :: _ => texLinkStep textures mat1 texNode

theorem texLinkStep_eq (textures : List (Option TextureM)) (mat1 : MaterialM)
    (texNode : CNode) (vid : Int) (vn : CNode) (r2 : List (Int × CNode))
    (hc2 : texNode.connectionsIn = (vid, vn) :: r2) :
    texLinkStep textures mat1 texNode
      = match findTex2D textures vid with
        | none => .ok mat1
        | some t =>
          .ok (texNode.children.foldl applyTexChild { mat1 with diffuseTexture := some t }) := by
  unfold texLinkStep
  rw [hc2]

/-- The `buildMaterials` loop over all Material-class nodes; an uncaught
    `TypeError` aborts the pass (and rejects the enclosing `resolve`). -/
def buildMaterialsM (textures : List (Option TextureM)) :
    List CNode → Except String (List MaterialM)
  | [] => .ok []
  | m :: rest =>
    match buildOneMaterial textures m with
    | .error e => .error e
    | .ok mm =>
      match buildMaterialsM textures rest with
      | .ok ms => .ok (mm :: ms)
      | .error e => .error e

theorem foldl_applyMatChild_diffuseTexture :
    ∀ (ch : List (String × List Rat)) (m : MaterialM),
      (ch.foldl applyMatChild m).diffuseTexture = m.diffuseTexture := by
  intro ch
  induction ch with
  | nil => intro m; rfl
  | cons c rest ih =>
    intro m
    rw [List.foldl_cons, ih]
    unfold applyMatChild
    split_ifs <;> rfl

theorem buildOneMaterial_ok (textures : List (Option TextureM)) (m : CNode)
    (h : ∀ fid texNode rest,
        m.connectionsIn = (fid, texNode) :: rest → texNode.connectionsIn ≠ []) :
    ∃ mm, buildOneMaterial textures m = .ok mm := by
  obtain ⟨i, onm, ch, conns⟩ := m
  cases conns with
  | nil => exact ⟨_, rfl⟩
  | cons c r =>
    obtain ⟨fid, texNode⟩ := c
    have hne := h fid texNode r rfl
    have hred : buildOneMaterial textures (CNode.mk i onm ch ((fid, texNode) :: r))
        = texLinkStep textures
            (ch.foldl applyMatChild { makeMaterial with name := onm, userRef := i })
            texNode := rfl
    cases hc2 : texNode.connectionsIn with
    | nil => exact absurd hc2 hne
    | cons c2 r2 =>
      obtain ⟨vid, vn⟩ := c2
      cases hf : findTex2D textures vid with
      | none =>
        refine ⟨ch.foldl applyMatChild { makeMaterial with name := onm, userRef := i }, ?_⟩
        rw [hred, texLinkStep_eq textures _ texNode vid vn r2 hc2, hf]
      | some t =>
        refine ⟨texNode.children.foldl applyTexChild
          { ch.foldl applyMatChild { makeMaterial with name := onm, userRef := i } with
              diffuseTexture := some t }, ?_⟩
        rw [hred, texLinkStep_eq textures _ texNode vid vn r2 hc2, hf]

/-- **C4** (amended): `buildMaterials` appends exactly one material per
    Material-class node and consults only the first incoming connection,
    and a failed texture lookup (no loaded texture whose `userRef`
    matches the backing Video id) is only a warning that leaves the
    diffuse texture unset — PROVIDED every consulted texture node has an
    incoming connection of its own; a texture node without one is not a
    warning but an uncaught `TypeError` (see the counterexample). -/
theorem buildMaterials_brokenLinks (textures : List (Option TextureM)) :
    (∀ (mats : List CNode),
        (∀ m ∈ mats, ∀ fid texNode rest,
            m.connectionsIn = (fid, texNode) :: rest → texNode.connectionsIn ≠ []) →
        ∃ ms, buildMaterialsM textures mats = .ok ms ∧ ms.length = mats.length)
    ∧ (∀ (i : Int) (onm : String) (ch : List (String × List Rat)) (c : Int × CNode)
        (r1 r2 : List (Int × CNode)),
        buildOneMaterial textures (.mk i onm ch (c :: r1))
          = buildOneMaterial textures (.mk i onm ch (c :: r2)))
    ∧ (∀ (i : Int) (onm : String) (ch : List (String × List Rat)) (fid : Int)
        (texNode : CNode) (rest : List (Int × CNode)) (vid : Int) (vnode : CNode)
        (rest2 : List (Int × CNode)),
        texNode.connectionsIn = (vid, vnode) :: rest2 →
        findTex2D textures vid = none →
        ∃ mm, buildOneMaterial textures (.mk i onm ch ((fid, texNode) :: rest)) = .ok mm
          ∧ mm.diffuseTexture = none) := by
  refine ⟨?_, ?_, ?_⟩
  · intro mats
    induction mats with
    | nil => exact fun _ => ⟨[], rfl, rfl⟩
    | cons m rest ih =>
      intro hsafe
      obtain ⟨mm, hmm⟩ :=
        buildOneMaterial_ok textures m (hsafe m (List.mem_cons_self m rest))
      obtain ⟨ms, hms, hlen⟩ := ih (fun x hx => hsafe x (List.mem_cons_of_mem m hx))
      refine ⟨mm :: ms, ?_, by simp [hlen]⟩
      unfold buildMaterialsM
      rw [hmm, hms]
  · intro i onm ch c r1 r2
    obtain ⟨fid, texNode⟩ := c
    rfl
  · intro i onm ch fid texNode rest vid vnode rest2 hconn hfind
    refine ⟨ch.foldl applyMatChild { makeMaterial with name := onm, userRef := i }, ?_, ?_⟩
    · have hred : buildOneMaterial textures (CNode.mk i onm ch ((fid, texNode) :: rest))
          = texLinkStep textures
              (ch.foldl applyMatChild { makeMaterial with name := onm, userRef := i })
              texNode := rfl
      rw [hred, texLinkStep_eq textures _ texNode vid vnode rest2 hconn, hfind]
    · exact foldl_applyMatChild_diffuseTexture ch _

/-- **C4** witness: one material without connections and one whose
    texture lookup fails both yield exactly one appended material with
    the diffuse texture unset. -/
theorem buildMaterials_brokenLinks_witness :
    (∀ m ∈ [CNode.mk 1 "mat" [] []], ∀ fid texNode rest,
        m.connectionsIn = (fid, texNode) :: rest → texNode.connectionsIn ≠ [])
    ∧ (∃ ms, buildMaterialsM [] [CNode.mk 1 "mat" [] []] = .ok ms ∧ ms.length = 1)
    ∧ (CNode.mk 9 "tex" [] [(3, CNode.mk 3 "vid" [] [])]).connectionsIn
        = (3, CNode.mk 3 "vid" [] []) :: []
    ∧ findTex2D [] 3 = none
    ∧ (∃ mm, buildOneMaterial []
          (.mk 1 "mat" [] [(9, CNode.mk 9 "tex" [] [(3, CNode.mk 3 "vid" [] [])])]) = .ok mm
        ∧ mm.diffuseTexture = none) := by
  have hsafe : ∀ m ∈ [CNode.mk 1 "mat" [] []], ∀ fid texNode rest,
      m.connectionsIn = (fid, texNode) :: rest → texNode.connectionsIn ≠ [] := by
    intro m hm fid texNode rest heq
    rcases List.mem_cons.mp hm with h | h
    · subst h
      exact absurd heq (by simp [CNode.connectionsIn])
    · cases h
  refine ⟨hsafe, (buildMaterials_brokenLinks []).1 [CNode.mk 1 "mat" [] []] hsafe, rfl, rfl, ?_⟩
  exact (buildMaterials_brokenLinks []).2.2 1 "mat" [] 9
    (CNode.mk 9 "tex" [] [(3, CNode.mk 3 "vid" [] [])]) [] 3 (CNode.mk 3 "vid" [] []) []
    rfl rfl

/-- **C4** counterexample to the unamended claim: a material whose first
    incoming connection leads to a texture node with NO incoming
    connection of its own makes `buildMaterials` throw a `TypeError`
    (reading `fromID` of `undefined`) instead of warning, so the pass
    fails and no material is appended. -/
theorem buildMaterials_brokenLinks_cex :
    buildMaterialsM [] [CNode.mk 1 "mat" [] [(9, CNode.mk 9 "tex" [] [])]]
      = .error "TypeError: cannot read fromID of undefined" := rfl

end StardazedFBX
